import Mathlib

/-!
Verification development for the github-label-tracker repository.

The definitions below are a shallow embedding of `src/lib/tracker-utils.js`
and `src/lib/report-utils.js` (the current versions of the files).
JavaScript objects keyed by issue / PR numbers are modelled as association
lists `List (Nat × β)` (JS object keys are unique), JS arrays as Lean lists,
JS numbers as `Nat` (log timestamps) or `Int` (report arithmetic, which can
go negative), and absent fields as `Option`.  JS truthiness of a numeric
field (`!x` is true for both `undefined` and `0`) is modelled by `falsy`,
and JS comparisons against `undefined` (always false) by `jsLtO`.
-/

namespace GithubLabelTracker

/-! ### Association-list model of JS objects -/

/-- Lookup in a JS object keyed by numbers: `obj[k]`. -/
def lookupA {β : Type} : List (Nat × β) → Nat → Option β
  | [], _ => none
  | p :: ps, k => if p.1 = k then some p.2 else lookupA ps k

/-- Assignment in a JS object: `obj[k] = v` (replaces the existing entry,
otherwise appends a new one). -/
def setA {β : Type} : List (Nat × β) → Nat → β → List (Nat × β)
  | [], k, v => [(k, v)]
  | p :: ps, k, v => if p.1 = k then (k, v) :: ps else p :: setA ps k v

/-- Deletion in a JS object: `delete obj[k]`. -/
def eraseA {β : Type} : List (Nat × β) → Nat → List (Nat × β)
  | [], _ => []
  | p :: ps, k => if p.1 = k then ps else p :: eraseA ps k

/-- The keys of a JS object. -/
def keysA {β : Type} (l : List (Nat × β)) : List Nat :=
  l.map Prod.fst

/-! ### tracker-utils.js: the change-log reconciler (`updateLog`) -/

/-- lodash `_.difference(a, b)`: the elements of `a` that do not occur in
`b`, in the order of `a`. -/
def diff (a b : List String) : List String :=
  a.filter (fun x => ¬ x ∈ b)

/-- One entry of an `IssueLabelRecord.changes` map: `added` / `removed` are
present (`some`) only when the corresponding field was set on the JS object. -/
structure Delta where
  added : Option (List String) := none
  removed : Option (List String) := none
  deriving DecidableEq, Repr

/-- One per tracked issue: the `current` tracked-label snapshot and the
timestamp-keyed `changes` history. -/
structure IssueLabelRecord where
  current : List String
  changes : List (Nat × Delta)
  deriving DecidableEq, Repr

/-- A pull-request record as stored in the log (`log.pullRequests[id]`). -/
structure PullRequestRecord where
  title : String
  assignee : Option String
  user : String
  created : Nat
  state : String
  latestAssigneeComment : Option Nat := none
  latestUserComment : Option Nat := none
  deriving DecidableEq, Repr

/-- The fresh PR fields produced by `getLatestIssueInfo` for one PR. -/
structure PRInfo where
  title : String
  assignee : Option String
  user : String
  created : Nat
  state : String
  deriving DecidableEq, Repr

/-- The observation batch returned by `getLatestIssueInfo`. -/
structure IssueInfo where
  timestamp : Nat
  issueLabels : List (Nat × List String)
  pullRequests : List (Nat × PRInfo)
  deriving DecidableEq, Repr

/-- One PR comment observation from `getLatestComments`. -/
structure CommentInfo where
  id : Nat
  user : String
  created : Nat
  deriving DecidableEq, Repr

/-- The comment batch returned by `getLatestComments`. -/
structure CommentBatch where
  timestamp : Nat
  prCommentTimestamps : List CommentInfo
  deriving DecidableEq, Repr

/-- The persisted log document. -/
structure LogDocument where
  timestamp : Option Nat := none
  issueLabels : List (Nat × IssueLabelRecord) := []
  pullRequests : List (Nat × PullRequestRecord) := []
  deriving DecidableEq, Repr

/-- `if l = [] then none else some l`: a JS object field that is only set
when the list is non-empty. -/
def mkOpt (l : List String) : Option (List String) :=
  if l = [] then none else some l

/-- The new log timestamp computed at the top of `updateLog`:
`issueInfo.timestamp`, replaced by `latestComments.timestamp` when the
latter is strictly greater. -/
def newTimestampOf (info : IssueInfo) (lc : Option CommentBatch) : Nat :=
  match lc with
  | some c => if info.timestamp < c.timestamp then c.timestamp else info.timestamp
  | none => info.timestamp

/-- The JS expression `(log.issueLabels[issue] && log.issueLabels[issue].current) || []`
applied to an already looked-up record. -/
def recCurrent (oldRec : Option IssueLabelRecord) : List String :=
  match oldRec with
  | some r => r.current
  | none => []

/-- The `changes` map of `log.issueLabels[issue] || {}` (with
`issueLabels.changes = issueLabels.changes || {}`). -/
def recChanges (oldRec : Option IssueLabelRecord) : List (Nat × Delta) :=
  match oldRec with
  | some r => r.changes
  | none => []

/-- The per-issue body of the `Object.keys(issueInfo.issueLabels).forEach`
loop in `updateLog` (tracker-utils.js lines 482-503), acting on the record
for one issue.  `ts` is `log.timestamp` at that point (the new timestamp).
Returns the record afterwards (`none` when it was absent and stays absent)
together with whether this issue set the `changed` flag. -/
def reconcileIssue (oldRec : Option IssueLabelRecord) (newLs : List String)
    (ts : Nat) : Option IssueLabelRecord × Bool :=
  let oldLs := recCurrent oldRec
  let removedLabels := diff oldLs newLs
  let addedLabels := diff newLs oldLs
  if removedLabels ≠ [] ∨ addedLabels ≠ [] then
    let newChanges : Delta := { added := mkOpt addedLabels, removed := mkOpt removedLabels }
    (some { current := newLs, changes := setA (recChanges oldRec) ts newChanges }, true)
  else
    (oldRec, false)

/-- One step of the issue-labels loop of `updateLog` over the running
`(log.issueLabels, changed)` state. -/
def issueStep (ts : Nat) (st : List (Nat × IssueLabelRecord) × Bool)
    (entry : Nat × List String) : List (Nat × IssueLabelRecord) × Bool :=
  let r := reconcileIssue (lookupA st.1 entry.1) entry.2 ts
  if r.2 then
    (match r.1 with
     | some rec => setA st.1 entry.1 rec
     | none => st.1, true)
  else
    st

/-- `_.extend(existingPR, newPR)`: overwrite the five fetched fields, keep
the comment timestamps. -/
def extendPR (e : PullRequestRecord) (n : PRInfo) : PullRequestRecord :=
  { title := n.title, assignee := n.assignee, user := n.user, created := n.created,
    state := n.state,
    latestAssigneeComment := e.latestAssigneeComment,
    latestUserComment := e.latestUserComment }

/-- The record created for a PR that is not yet in the log (`{}` extended
with the fetched fields). -/
def freshPR (n : PRInfo) : PullRequestRecord :=
  { title := n.title, assignee := n.assignee, user := n.user, created := n.created,
    state := n.state }

/-- One step of the `Object.keys(issueInfo.pullRequests).forEach` loop of
`updateLog` (tracker-utils.js lines 507-525). -/
def prStep (st : List (Nat × PullRequestRecord) × Bool)
    (entry : Nat × PRInfo) : List (Nat × PullRequestRecord) × Bool :=
  let newPR := entry.2
  if newPR.state = "closed" then
    (eraseA st.1 entry.1, true)
  else
    match lookupA st.1 entry.1 with
    | none => (setA st.1 entry.1 (freshPR newPR), true)
    | some e => (setA st.1 entry.1 (extendPR e newPR), true)

/-- The JS guard `!pr.latestXComment || pr.latestXComment < comment.created`
(`0` is falsy in JS). -/
def commentMovesForward (cur : Option Nat) (created : Nat) : Bool :=
  match cur with
  | none => true
  | some t => t = 0 || t < created

/-- One step of the `latestComments.prCommentTimestamps.forEach` loop of
`updateLog` (tracker-utils.js lines 529-544). -/
def commentStep (st : List (Nat × PullRequestRecord) × Bool)
    (c : CommentInfo) : List (Nat × PullRequestRecord) × Bool :=
  match lookupA st.1 c.id with
  | none => st
  | some pr =>
    if pr.assignee = some c.user then
      if commentMovesForward pr.latestAssigneeComment c.created then
        (setA st.1 c.id { pr with latestAssigneeComment := some c.created }, true)
      else st
    else if c.user = pr.user then
      if commentMovesForward pr.latestUserComment c.created then
        (setA st.1 c.id { pr with latestUserComment := some c.created }, true)
      else st
    else st

/-- The comment-gathering stage of `updateLog`, guarded by
`if (latestComments && latestComments.prCommentTimestamps)`. -/
def commentFold (lc : Option CommentBatch)
    (st : List (Nat × PullRequestRecord) × Bool) :
    List (Nat × PullRequestRecord) × Bool :=
  match lc with
  | some c => c.prCommentTimestamps.foldl commentStep st
  | none => st

/-- `exports.updateLog(log, issueInfo, latestComments)`
(tracker-utils.js lines 463-548), returning the updated log and the
`changed` flag. -/
def updateLog (log : LogDocument) (info : IssueInfo) (lc : Option CommentBatch) :
    LogDocument × Bool :=
  let newT := newTimestampOf info lc
  let ilState := info.issueLabels.foldl (issueStep newT)
    (log.issueLabels, decide (log.timestamp ≠ some newT))
  let prState := info.pullRequests.foldl prStep (log.pullRequests, ilState.2)
  let finalState := commentFold lc prState
  ({ timestamp := some newT, issueLabels := ilState.1, pullRequests := finalState.1 },
   finalState.2)

/-! ### Replay of a record's change history (spec §3 / §8 round-trip) -/

/-- Apply one delta to a label set: add the `added` labels, remove the
`removed` labels. -/
def applyDelta (s : List String) (d : Delta) : List String :=
  (s ++ (d.added.getD []).filter (fun x => ¬ x ∈ s)).filter
    (fun x => ¬ x ∈ (d.removed.getD []))

/-- Replay a `changes` map in ascending timestamp order, starting from the
empty label set. -/
def replayChanges (ch : List (Nat × Delta)) : List String :=
  (List.insertionSort (fun a b : Nat × Delta => a.1 ≤ b.1) ch).foldl
    (fun s p => applyDelta s p.2) []

/-- Equality of label sets (lists compared by membership only). -/
def SetEq (a b : List String) : Prop :=
  (∀ x ∈ a, x ∈ b) ∧ (∀ x ∈ b, x ∈ a)

instance (a b : List String) : Decidable (SetEq a b) :=
  inferInstanceAs (Decidable (_ ∧ _))

/-- Apply a sequence of `updateLog` runs to a log. -/
def runUpdates (log : LogDocument) : List (IssueInfo × Option CommentBatch) → LogDocument
  | [] => log
  | r :: rs => runUpdates (updateLog log r.1 r.2).1 rs

/-- A run sequence is admissible when each run's batch has unique issue keys
(a JS-object guarantee) and the effective timestamps are strictly increasing
starting from the log timestamp `t0`. -/
def runsOk (t0 : Option Nat) : List (IssueInfo × Option CommentBatch) → Bool
  | [] => true
  | r :: rs =>
    (match t0 with
     | none => true
     | some t => t < newTimestampOf r.1 r.2) &&
    (keysA r.1.issueLabels).Nodup &&
    runsOk (some (newTimestampOf r.1 r.2)) rs

/-! ### report-utils.js: report-state strings and the state machine -/

/-- The PR workflow-state constants of tracker-utils.js. -/
def PR_STATE_NEW : String := "new"

/-- PR workflow state: an assignee is triaging. -/
def PR_STATE_IN_TRIAGE : String := "in triage"

/-- PR workflow state: triage finished, no assignee. -/
def PR_STATE_TRIAGED : String := "triaged"

/-- PR workflow state: an assignee is reviewing. -/
def PR_STATE_IN_REVIEW : String := "in review"

/-- Report-state constant `RS_OVERDUE_AWAITING_REVIEW`. -/
def RS_OVERDUE_AWAITING_REVIEW : String := "Overdue, Awaiting Review"

/-- Report-state constant `RS_OVERDUE_AWAITING_TRIAGE`. -/
def RS_OVERDUE_AWAITING_TRIAGE : String := "Overdue, Awaiting Triage"

/-- Report-state constant `RS_AWAITING_TRIAGE`. -/
def RS_AWAITING_TRIAGE : String := "Awaiting Triage"

/-- Report-state constant `RS_AWAITING_REVIEW`. -/
def RS_AWAITING_REVIEW : String := "Awaiting Review"

/-- Report-state constant `RS_OVERDUE_IN_REVIEW`. -/
def RS_OVERDUE_IN_REVIEW : String := "Overdue, In Review"

/-- Report-state constant `RS_OVERDUE_IN_TRIAGE`. -/
def RS_OVERDUE_IN_TRIAGE : String := "Overdue, In Triage"

/-- Report-state constant `RS_OVERDUE_FROM_USER_IN_REVIEW`. -/
def RS_OVERDUE_FROM_USER_IN_REVIEW : String := "Overdue from user, In Review"

/-- Report-state constant `RS_OVERDUE_FROM_USER_IN_TRIAGE`. -/
def RS_OVERDUE_FROM_USER_IN_TRIAGE : String := "Overdue from user, In Triage"

/-- Report-state constant `RS_IN_REVIEW`. -/
def RS_IN_REVIEW : String := "In Review"

/-- Report-state constant `RS_IN_TRIAGE`. -/
def RS_IN_TRIAGE : String := "In Triage"

/-- The `phase` argument of `_waitingState` / `_inState`: the source only
ever passes the strings "TRIAGE" and "REVIEW". -/
inductive Phase where
  | TRIAGE
  | REVIEW
  deriving DecidableEq, Repr

/-- The dynamic lookup `exports["RS_AWAITING_" + phase]`. -/
def rsAwaiting : Phase → String
  | Phase.TRIAGE => RS_AWAITING_TRIAGE
  | Phase.REVIEW => RS_AWAITING_REVIEW

/-- The dynamic lookup `exports["RS_OVERDUE_AWAITING_" + phase]`. -/
def rsOverdueAwaiting : Phase → String
  | Phase.TRIAGE => RS_OVERDUE_AWAITING_TRIAGE
  | Phase.REVIEW => RS_OVERDUE_AWAITING_REVIEW

/-- The dynamic lookup `exports["RS_IN_" + phase]`. -/
def rsIn : Phase → String
  | Phase.TRIAGE => RS_IN_TRIAGE
  | Phase.REVIEW => RS_IN_REVIEW

/-- The dynamic lookup `exports["RS_OVERDUE_IN_" + phase]`. -/
def rsOverdueIn : Phase → String
  | Phase.TRIAGE => RS_OVERDUE_IN_TRIAGE
  | Phase.REVIEW => RS_OVERDUE_IN_REVIEW

/-- The dynamic lookup `exports["RS_OVERDUE_FROM_USER_IN_" + phase]`. -/
def rsOverdueFromUserIn : Phase → String
  | Phase.TRIAGE => RS_OVERDUE_FROM_USER_IN_TRIAGE
  | Phase.REVIEW => RS_OVERDUE_FROM_USER_IN_REVIEW

/-- The result of `getReportState`: a report-state label and a timer. -/
structure ReportResult where
  reportState : String
  timer : Int
  deriving DecidableEq, Repr

/-- JS truthiness test on an optional numeric field: `!x` is true when the
field is `undefined` or `0`. -/
def falsy (x : Option Int) : Bool :=
  match x with
  | none => true
  | some t => t = 0

/-- The numeric value used once a field takes part in JS arithmetic
(only ever observable in the source after a truthiness guard). -/
def jsVal (x : Option Int) : Int :=
  x.getD 0

/-- JS `<` on possibly-undefined numbers: any comparison against
`undefined` is false. -/
def jsLtO (a b : Option Int) : Bool :=
  match a, b with
  | some a, some b => a < b
  | _, _ => false

/-- `_waitingState(currentTime, timeLimit, phase, timestamp)`
(report-utils.js lines 86-98). -/
def _waitingState (currentTime timeLimit : Int) (phase : Phase) (timestamp : Int) :
    ReportResult :=
  if currentTime - timestamp > timeLimit then
    { reportState := rsOverdueAwaiting phase, timer := currentTime - timestamp - timeLimit }
  else
    { reportState := rsAwaiting phase, timer := timestamp - (currentTime - timeLimit) }

/-- `_inState(currentTime, timeLimit, phase, latestUserComment,
latestAssigneeComment, created)` (report-utils.js lines 100-134). -/
def _inState (currentTime timeLimit : Int) (phase : Phase)
    (latestUserComment latestAssigneeComment : Option Int) (created : Int) :
    ReportResult :=
  if (falsy latestUserComment && falsy latestAssigneeComment) || falsy latestAssigneeComment then
    if currentTime - created > timeLimit then
      { reportState := rsOverdueIn phase, timer := currentTime - created - timeLimit }
    else
      { reportState := rsIn phase, timer := created - (currentTime - timeLimit) }
  else if falsy latestUserComment &&
      (currentTime - jsVal latestAssigneeComment < timeLimit ||
       currentTime - created < timeLimit) then
    { reportState := rsIn phase, timer := jsVal latestAssigneeComment - (currentTime - timeLimit) }
  else if jsLtO latestAssigneeComment latestUserComment &&
      currentTime - jsVal latestUserComment > timeLimit then
    { reportState := rsOverdueIn phase, timer := currentTime - jsVal latestUserComment - timeLimit }
  else if falsy latestUserComment ||
      (jsLtO latestUserComment latestAssigneeComment &&
       currentTime - jsVal latestAssigneeComment > timeLimit) then
    { reportState := rsOverdueFromUserIn phase,
      timer := currentTime - jsVal latestAssigneeComment - timeLimit }
  else
    { reportState := rsIn phase,
      timer := max (jsVal latestAssigneeComment) (jsVal latestUserComment) -
        (currentTime - timeLimit) }

/-- The PR fields read by `getReportState`. -/
structure ReportPR where
  state : String
  created : Int := 0
  triageCompleted : Option Int := none
  latestUserComment : Option Int := none
  latestAssigneeComment : Option Int := none
  deriving DecidableEq, Repr

/-- `exports.getReportState(pr, currentTime, timeLimit)`
(report-utils.js lines 136-147); `none` models the undefined result of the
switch for any other state.  A `triageCompleted` of `none` models the JS
`null` produced by `whenTriageCompleted`, which coerces to `0` in the
arithmetic of `_waitingState`. -/
def getReportState (pr : ReportPR) (currentTime timeLimit : Int) :
    Option ReportResult :=
  if pr.state = PR_STATE_NEW then
    some (_waitingState currentTime timeLimit Phase.TRIAGE pr.created)
  else if pr.state = PR_STATE_IN_TRIAGE then
    some (_inState currentTime timeLimit Phase.TRIAGE pr.latestUserComment
      pr.latestAssigneeComment pr.created)
  else if pr.state = PR_STATE_TRIAGED then
    some (_waitingState currentTime timeLimit Phase.REVIEW (jsVal pr.triageCompleted))
  else if pr.state = PR_STATE_IN_REVIEW then
    some (_inState currentTime timeLimit Phase.REVIEW pr.latestUserComment
      pr.latestAssigneeComment pr.created)
  else
    none

/-! ### Basic lemmas about the association-list operations and `diff` -/

theorem mem_diff {x : String} {a b : List String} :
    x ∈ diff a b ↔ x ∈ a ∧ x ∉ b := by
  simp [diff]

theorem diff_self (l : List String) : diff l l = [] := by
  simp [diff]

theorem diff_eq_nil_iff {a b : List String} :
    diff a b = [] ↔ ∀ x ∈ a, x ∈ b := by
  simp [diff, List.filter_eq_nil_iff]

theorem lookupA_setA_self {β : Type} (l : List (Nat × β)) (k : Nat) (v : β) :
    lookupA (setA l k v) k = some v := by
  induction l with
  | nil => simp [setA, lookupA]
  | cons p ps ih =>
    by_cases h : p.1 = k
    · simp [setA, h, lookupA]
    · simp [setA, h, lookupA, ih]

theorem lookupA_setA_ne {β : Type} (l : List (Nat × β)) (k n : Nat) (v : β)
    (h : k ≠ n) : lookupA (setA l k v) n = lookupA l n := by
  induction l with
  | nil => simp [setA, lookupA, h]
  | cons p ps ih =>
    by_cases hp : p.1 = k
    · simp [setA, hp, lookupA, h]
    · simp [setA, hp, lookupA, ih]

theorem mem_setA {β : Type} {l : List (Nat × β)} {k : Nat} {v : β} {p : Nat × β}
    (h : p ∈ setA l k v) : p = (k, v) ∨ p ∈ l := by
  induction l with
  | nil => simpa [setA] using h
  | cons q qs ih =>
    by_cases hq : q.1 = k
    · rcases (by simpa [setA, hq] using h) with h' | h'
      · exact Or.inl h'
      · exact Or.inr (List.mem_cons_of_mem _ h')
    · rcases (by simpa [setA, hq] using h) with h' | h'
      · exact Or.inr (by simp [h'])
      · rcases ih h' with h'' | h''
        · exact Or.inl h''
        · exact Or.inr (List.mem_cons_of_mem _ h'')

theorem setA_of_not_mem_keys {β : Type} {l : List (Nat × β)} {k : Nat} (v : β)
    (h : ¬ k ∈ keysA l) : setA l k v = l ++ [(k, v)] := by
  induction l with
  | nil => simp [setA]
  | cons q qs ih =>
    simp only [keysA, List.map_cons, List.mem_cons] at h
    push_neg at h
    simp [setA, Ne.symm h.1, ih (by simpa [keysA] using h.2)]

theorem lookupA_of_mem_nodup {β : Type} {l : List (Nat × β)} {n : Nat} {v : β}
    (hmem : (n, v) ∈ l) (hnd : (keysA l).Nodup) : lookupA l n = some v := by
  induction l with
  | nil => simp at hmem
  | cons q qs ih =>
    simp only [keysA, List.map_cons, List.nodup_cons] at hnd
    rcases List.mem_cons.mp hmem with h | h
    · simp [lookupA, ← h]
    · have hne : q.1 ≠ n := by
        intro he
        exact hnd.1 (he ▸ (List.mem_map.mpr ⟨(n, v), h, rfl⟩))
      simp [lookupA, hne, ih h (by simpa [keysA] using hnd.2)]

/-! ### Claim C9: reconciler idempotence -/

theorem reconcileIssue_neg {oldRec : Option IssueLabelRecord}
    {newLs : List String} {ts : Nat}
    (h1 : diff (recCurrent oldRec) newLs = [])
    (h2 : diff newLs (recCurrent oldRec) = []) :
    reconcileIssue oldRec newLs ts = (oldRec, false) := by
  simp only [reconcileIssue, h1, h2]
  simp

theorem reconcileIssue_pos {oldRec : Option IssueLabelRecord}
    {newLs : List String} {ts : Nat}
    (h : diff (recCurrent oldRec) newLs ≠ [] ∨ diff newLs (recCurrent oldRec) ≠ []) :
    reconcileIssue oldRec newLs ts =
      (some { current := newLs,
              changes := setA (recChanges oldRec) ts
                { added := mkOpt (diff newLs (recCurrent oldRec)),
                  removed := mkOpt (diff (recCurrent oldRec) newLs) } }, true) := by
  simp only [reconcileIssue]
  rw [if_pos h]

/-- Claim C9 (counterexample): calling the reconciler a second time, on the
first call's output, with the same `(newLabelSet, timestamp)` does not yield
the same `changed` result both times: the first call reports `true`, the
second `false`. -/
theorem C9_cex :
    (reconcileIssue (reconcileIssue none ["A"] 1).1 ["A"] 1).2 ≠
      (reconcileIssue none ["A"] 1).2 := by
  decide

/-- Claim C9 (amended): re-running the reconciler on the first call's output
with the same `(newLabelSet, timestamp)` leaves the record identical and
reports `changed = false`; hence the two `changed` results agree exactly
when the first call reported no change. -/
theorem C9_second_run_fixpoint (oldRec : Option IssueLabelRecord)
    (newLs : List String) (ts : Nat) :
    reconcileIssue (reconcileIssue oldRec newLs ts).1 newLs ts =
      ((reconcileIssue oldRec newLs ts).1, false) := by
  by_cases h : diff (recCurrent oldRec) newLs ≠ [] ∨ diff newLs (recCurrent oldRec) ≠ []
  · rw [reconcileIssue_pos h]
    exact reconcileIssue_neg (by simp [recCurrent, diff_self]) (by simp [recCurrent, diff_self])
  · push_neg at h
    rw [reconcileIssue_neg h.1 h.2]
    exact reconcileIssue_neg h.1 h.2

/-! ### Claim C3: the no-change branch -/

theorem updateLog_issueLabels (log : LogDocument) (info : IssueInfo)
    (lc : Option CommentBatch) :
    (updateLog log info lc).1.issueLabels =
      (info.issueLabels.foldl (issueStep (newTimestampOf info lc))
        (log.issueLabels, decide (log.timestamp ≠ some (newTimestampOf info lc)))).1 :=
  rfl

theorem issueStep_lookup_ne (ts : Nat) (st : List (Nat × IssueLabelRecord) × Bool)
    (e : Nat × List String) (n : Nat) (h : e.1 ≠ n) :
    lookupA (issueStep ts st e).1 n = lookupA st.1 n := by
  rcases hrec : reconcileIssue (lookupA st.1 e.1) e.2 ts with ⟨orec, b⟩
  cases b
  · simp [issueStep, hrec]
  · cases orec
    · simp [issueStep, hrec]
    · simp [issueStep, hrec, lookupA_setA_ne _ _ _ _ h]

theorem foldIssues_lookup_of_unchanged (ts : Nat)
    (entries : List (Nat × List String)) (st : List (Nat × IssueLabelRecord) × Bool)
    (n : Nat)
    (h : ∀ ls, (n, ls) ∈ entries → (reconcileIssue (lookupA st.1 n) ls ts).2 = false) :
    lookupA (entries.foldl (issueStep ts) st).1 n = lookupA st.1 n := by
  induction entries generalizing st with
  | nil => rfl
  | cons e rest ih =>
    obtain ⟨k, ls⟩ := e
    rw [List.foldl_cons]
    by_cases he : k = n
    · subst he
      have hfalse := h ls (List.mem_cons_self _ _)
      have hstep : issueStep ts st (k, ls) = st := by
        simp [issueStep, hfalse]
      rw [hstep]
      exact ih st (fun ls' hm => h ls' (List.mem_cons_of_mem _ hm))
    · have hpres : lookupA (issueStep ts st (k, ls)).1 n = lookupA st.1 n :=
        issueStep_lookup_ne ts st (k, ls) n he
      rw [ih (issueStep ts st (k, ls)) (fun ls' hm => by
        rw [hpres]; exact h ls' (List.mem_cons_of_mem _ hm))]
      exact hpres

/-- Claim C3 (counterexample): in the no-change branch the record's
`current` is NOT overwritten with the newly observed label set.  With a
stored `current = ["A","B"]` and a new observation `["B","A"]` (equal as a
set, both diffs empty, `changed = false`) the stored list stays
`["A","B"]`, it is not replaced by `["B","A"]`. -/
theorem C3_cex :
    diff ["A", "B"] ["B", "A"] = [] ∧ diff ["B", "A"] ["A", "B"] = [] ∧
    (lookupA (updateLog
        { timestamp := some 5, issueLabels := [(1, { current := ["A", "B"], changes := [] })] }
        { timestamp := 5, issueLabels := [(1, ["B", "A"])], pullRequests := [] }
        none).1.issueLabels 1).map IssueLabelRecord.current = some ["A", "B"] ∧
    (["A", "B"] : List String) ≠ ["B", "A"] ∧
    (updateLog
        { timestamp := some 5, issueLabels := [(1, { current := ["A", "B"], changes := [] })] }
        { timestamp := 5, issueLabels := [(1, ["B", "A"])], pullRequests := [] }
        none).2 = false := by
  decide

/-- Claim C3 (amended): for every `updateLog` run and every issue in the
batch whose computed `added` and `removed` sets are both empty, the
reconciliation reports `changed = false` for that issue and the record is
left entirely untouched — no `changes` entry is added and `current` keeps
its previous value (which is set-equal to, but not overwritten with, the
newly observed list). -/
theorem C3_no_change_branch (log : LogDocument) (info : IssueInfo)
    (lc : Option CommentBatch) (n : Nat) (ls : List String)
    (hnd : (keysA info.issueLabels).Nodup)
    (hmem : (n, ls) ∈ info.issueLabels)
    (h1 : diff (recCurrent (lookupA log.issueLabels n)) ls = [])
    (h2 : diff ls (recCurrent (lookupA log.issueLabels n)) = []) :
    reconcileIssue (lookupA log.issueLabels n) ls (newTimestampOf info lc) =
      (lookupA log.issueLabels n, false) ∧
    lookupA (updateLog log info lc).1.issueLabels n = lookupA log.issueLabels n := by
  refine ⟨reconcileIssue_neg h1 h2, ?_⟩
  rw [updateLog_issueLabels]
  apply foldIssues_lookup_of_unchanged
  intro ls' hmem'
  have hls : ls' = ls := by
    have ha := lookupA_of_mem_nodup hmem hnd
    have hb := lookupA_of_mem_nodup hmem' hnd
    rw [ha] at hb
    exact (Option.some.inj hb).symm
  rw [hls, reconcileIssue_neg h1 h2]

/-- Claim C3 (witness): the amended theorem applied to a concrete log whose
issue 1 carries `current = ["A"]` and a batch observing `["A"]` again. -/
theorem C3_no_change_branch_witness :
    reconcileIssue (lookupA [(1, { current := ["A"], changes := [] })] 1) ["A"]
      (newTimestampOf { timestamp := 5, issueLabels := [(1, ["A"])], pullRequests := [] } none) =
      (lookupA [(1, { current := ["A"], changes := [] })] 1, false) ∧
    lookupA (updateLog
        { timestamp := some 5, issueLabels := [(1, { current := ["A"], changes := [] })] }
        { timestamp := 5, issueLabels := [(1, ["A"])], pullRequests := [] }
        none).1.issueLabels 1 =
      lookupA [(1, { current := ["A"], changes := [] })] 1 :=
  C3_no_change_branch
    { timestamp := some 5, issueLabels := [(1, { current := ["A"], changes := [] })] }
    { timestamp := 5, issueLabels := [(1, ["A"])], pullRequests := [] }
    none 1 ["A"] (by decide) (by decide) (by decide) (by decide)

/-! ### Claim C2: the delta postcondition of `updateLog` -/

theorem reconcileIssue_snd_true {oldRec : Option IssueLabelRecord}
    {newLs : List String} {ts : Nat}
    (h : diff (recCurrent oldRec) newLs ≠ [] ∨ diff newLs (recCurrent oldRec) ≠ []) :
    (reconcileIssue oldRec newLs ts).2 = true := by
  rw [reconcileIssue_pos h]

theorem prStep_snd (st : List (Nat × PullRequestRecord) × Bool) (e : Nat × PRInfo) :
    (prStep st e).2 = true := by
  by_cases h : e.2.state = "closed"
  · simp [prStep, h]
  · rcases hl : lookupA st.1 e.1 with _ | pr <;> simp [prStep, h, hl]

theorem foldPR_flag_mono (entries : List (Nat × PRInfo))
    (st : List (Nat × PullRequestRecord) × Bool) (h : st.2 = true) :
    (entries.foldl prStep st).2 = true := by
  induction entries generalizing st with
  | nil => exact h
  | cons e rest ih => exact ih _ (prStep_snd st e)

theorem commentStep_flag_mono (st : List (Nat × PullRequestRecord) × Bool)
    (c : CommentInfo) (h : st.2 = true) : (commentStep st c).2 = true := by
  simp only [commentStep]
  rcases hl : lookupA st.1 c.id with _ | pr
  · exact h
  · dsimp only
    by_cases ha : pr.assignee = some c.user
    · rw [if_pos ha]
      by_cases hm : commentMovesForward pr.latestAssigneeComment c.created = true
      · rw [if_pos hm]
      · rw [if_neg hm]; exact h
    · rw [if_neg ha]
      by_cases hu : c.user = pr.user
      · rw [if_pos hu]
        by_cases hm : commentMovesForward pr.latestUserComment c.created = true
        · rw [if_pos hm]
        · rw [if_neg hm]; exact h
      · rw [if_neg hu]; exact h

theorem commentFold_flag_mono (lc : Option CommentBatch)
    (st : List (Nat × PullRequestRecord) × Bool) (h : st.2 = true) :
    (commentFold lc st).2 = true := by
  cases lc with
  | none => exact h
  | some c =>
    show (c.prCommentTimestamps.foldl commentStep st).2 = true
    induction c.prCommentTimestamps generalizing st with
    | nil => exact h
    | cons x rest ih => exact ih _ (commentStep_flag_mono st x h)

theorem issueStep_flag_mono (ts : Nat) (st : List (Nat × IssueLabelRecord) × Bool)
    (e : Nat × List String) (h : st.2 = true) : (issueStep ts st e).2 = true := by
  rcases hrec : reconcileIssue (lookupA st.1 e.1) e.2 ts with ⟨orec, b⟩
  cases b
  · simpa [issueStep, hrec] using h
  · cases orec <;> simp [issueStep, hrec]

theorem foldIssues_flag_mono (ts : Nat) (entries : List (Nat × List String))
    (st : List (Nat × IssueLabelRecord) × Bool) (h : st.2 = true) :
    (entries.foldl (issueStep ts) st).2 = true := by
  induction entries generalizing st with
  | nil => exact h
  | cons e rest ih => exact ih _ (issueStep_flag_mono ts st e h)

theorem updateLog_snd_of_issues (log : LogDocument) (info : IssueInfo)
    (lc : Option CommentBatch)
    (h : (info.issueLabels.foldl (issueStep (newTimestampOf info lc))
      (log.issueLabels, decide (log.timestamp ≠ some (newTimestampOf info lc)))).2 = true) :
    (updateLog log info lc).2 = true := by
  show (commentFold lc (info.pullRequests.foldl prStep (log.pullRequests, _))).2 = true
  exact commentFold_flag_mono _ _ (foldPR_flag_mono _ _ h)

theorem foldIssues_lookup_of_not_key (ts : Nat) (entries : List (Nat × List String))
    (st : List (Nat × IssueLabelRecord) × Bool) (n : Nat) (h : ¬ n ∈ keysA entries) :
    lookupA (entries.foldl (issueStep ts) st).1 n = lookupA st.1 n := by
  induction entries generalizing st with
  | nil => rfl
  | cons e rest ih =>
    simp only [keysA, List.map_cons, List.mem_cons] at h
    push_neg at h
    rw [List.foldl_cons, ih _ (by simpa [keysA] using h.2)]
    exact issueStep_lookup_ne ts st e n (fun he => h.1 he.symm)

theorem foldIssues_processes (ts : Nat) (entries : List (Nat × List String))
    (st : List (Nat × IssueLabelRecord) × Bool) (n : Nat) (ls : List String)
    (hnd : (keysA entries).Nodup) (hmem : (n, ls) ∈ entries)
    (hch : (reconcileIssue (lookupA st.1 n) ls ts).2 = true) :
    lookupA (entries.foldl (issueStep ts) st).1 n =
      (reconcileIssue (lookupA st.1 n) ls ts).1 ∧
    (entries.foldl (issueStep ts) st).2 = true := by
  induction entries generalizing st with
  | nil => simp at hmem
  | cons e rest ih =>
    obtain ⟨k, ls'⟩ := e
    simp only [keysA, List.map_cons, List.nodup_cons] at hnd
    rw [List.foldl_cons]
    by_cases he : k = n
    · subst he
      have hls : ls' = ls := by
        rcases List.mem_cons.mp hmem with h | h
        · exact (congrArg Prod.snd h).symm
        · exact absurd (List.mem_map.mpr ⟨(k, ls), h, rfl⟩) hnd.1
      subst hls
      have hpos : diff (recCurrent (lookupA st.1 k)) ls' ≠ [] ∨
          diff ls' (recCurrent (lookupA st.1 k)) ≠ [] := by
        by_contra hc
        push_neg at hc
        rw [reconcileIssue_neg hc.1 hc.2] at hch
        simp at hch
      obtain ⟨rec, hrec⟩ : ∃ rec,
          reconcileIssue (lookupA st.1 k) ls' ts = (some rec, true) :=
        ⟨_, reconcileIssue_pos hpos⟩
      have hstep : issueStep ts st (k, ls') = (setA st.1 k rec, true) := by
        simp [issueStep, hrec]
      rw [hstep, hrec]
      constructor
      · rw [foldIssues_lookup_of_not_key ts rest _ k (by simpa [keysA] using hnd.1)]
        exact lookupA_setA_self st.1 k rec
      · exact foldIssues_flag_mono ts rest _ rfl
    · have hpres : lookupA (issueStep ts st (k, ls')).1 n = lookupA st.1 n :=
        issueStep_lookup_ne ts st (k, ls') n he
      have hmem' : (n, ls) ∈ rest := by
        rcases List.mem_cons.mp hmem with h | h
        · exact absurd (congrArg Prod.fst h).symm he
        · exact h
      have := ih (issueStep ts st (k, ls')) (by simpa [keysA] using hnd.2)
        hmem' (by rw [hpres]; exact hch)
      rwa [hpres] at this

/-- Claim C2: for every `updateLog` run and every issue of the batch whose
old/new label sets differ (some label added or removed), `updateLog` stores
into the record's `changes` at the new log timestamp the delta with
`added = new − old` and `removed = old − new` (each field present only when
non-empty), sets the record's `current` to the newly observed list, and
returns `changed = true`. -/
theorem C2_delta_postcondition (log : LogDocument) (info : IssueInfo)
    (lc : Option CommentBatch) (n : Nat) (newLs : List String)
    (hnd : (keysA info.issueLabels).Nodup)
    (hmem : (n, newLs) ∈ info.issueLabels)
    (hch : diff (recCurrent (lookupA log.issueLabels n)) newLs ≠ [] ∨
           diff newLs (recCurrent (lookupA log.issueLabels n)) ≠ []) :
    (lookupA (updateLog log info lc).1.issueLabels n).map IssueLabelRecord.current =
      some newLs ∧
    ((lookupA (updateLog log info lc).1.issueLabels n).bind
        (fun r => lookupA r.changes (newTimestampOf info lc))) =
      some { added := mkOpt (diff newLs (recCurrent (lookupA log.issueLabels n))),
             removed := mkOpt (diff (recCurrent (lookupA log.issueLabels n)) newLs) } ∧
    (updateLog log info lc).2 = true := by
  have hproc := foldIssues_processes (newTimestampOf info lc) info.issueLabels
    (log.issueLabels, decide (log.timestamp ≠ some (newTimestampOf info lc))) n newLs
    hnd hmem (reconcileIssue_snd_true hch)
  have hlook : lookupA (updateLog log info lc).1.issueLabels n =
      (reconcileIssue (lookupA log.issueLabels n) newLs (newTimestampOf info lc)).1 := by
    rw [updateLog_issueLabels]
    exact hproc.1
  rw [hlook, reconcileIssue_pos hch]
  refine ⟨rfl, ?_, ?_⟩
  · simp only [Option.some_bind]
    exact lookupA_setA_self _ _ _
  · exact updateLog_snd_of_issues log info lc hproc.2

/-- Claim C2 (witness): spec Scenario E — old labels `{A, B}`, new labels
`{B, C}` at timestamp 2 produce `changes[2] = {added: ["C"], removed: ["A"]}`,
`current = ["B", "C"]` and `changed = true`. -/
theorem C2_delta_postcondition_witness :
    (lookupA (updateLog
        { timestamp := some 1, issueLabels := [(7, { current := ["A", "B"], changes := [] })] }
        { timestamp := 2, issueLabels := [(7, ["B", "C"])], pullRequests := [] }
        none).1.issueLabels 7).map IssueLabelRecord.current = some ["B", "C"] ∧
    ((lookupA (updateLog
        { timestamp := some 1, issueLabels := [(7, { current := ["A", "B"], changes := [] })] }
        { timestamp := 2, issueLabels := [(7, ["B", "C"])], pullRequests := [] }
        none).1.issueLabels 7).bind
        (fun r => lookupA r.changes
          (newTimestampOf { timestamp := 2, issueLabels := [(7, ["B", "C"])], pullRequests := [] }
            none))) =
      some { added := mkOpt (diff ["B", "C"]
               (recCurrent (lookupA [(7, { current := ["A", "B"], changes := [] })] 7))),
             removed := mkOpt (diff
               (recCurrent (lookupA [(7, { current := ["A", "B"], changes := [] })] 7))
               ["B", "C"]) } ∧
    (updateLog
        { timestamp := some 1, issueLabels := [(7, { current := ["A", "B"], changes := [] })] }
        { timestamp := 2, issueLabels := [(7, ["B", "C"])], pullRequests := [] }
        none).2 = true :=
  C2_delta_postcondition
    { timestamp := some 1, issueLabels := [(7, { current := ["A", "B"], changes := [] })] }
    { timestamp := 2, issueLabels := [(7, ["B", "C"])], pullRequests := [] }
    none 7 ["B", "C"] (by decide) (by decide) (by decide)

/-! ### Claim C10: any PR in the batch forces `changed = true` -/

theorem foldPR_flag_of_ne_nil (entries : List (Nat × PRInfo))
    (st : List (Nat × PullRequestRecord) × Bool) (h : entries ≠ []) :
    (entries.foldl prStep st).2 = true := by
  cases entries with
  | nil => exact absurd rfl h
  | cons e rest =>
    rw [List.foldl_cons]
    exact foldPR_flag_mono rest _ (prStep_snd st e)

/-- Claim C10: whenever the observation batch contains at least one pull
request, `updateLog` returns `changed = true`, regardless of whether any
stored data differs (open PRs set the flag unconditionally after merging,
and a closed PR sets it even when no record exists to delete). -/
theorem C10_pr_batch_forces_changed (log : LogDocument) (info : IssueInfo)
    (lc : Option CommentBatch) (h : info.pullRequests ≠ []) :
    (updateLog log info lc).2 = true := by
  show (commentFold lc (info.pullRequests.foldl prStep (log.pullRequests, _))).2 = true
  exact commentFold_flag_mono _ _ (foldPR_flag_of_ne_nil _ _ h)

/-- Claim C10 (witness): a batch containing a single PR fetched as closed,
with no record of it in the log and an unchanged timestamp, still returns
`changed = true`. -/
theorem C10_pr_batch_forces_changed_witness :
    (updateLog { timestamp := some 1 }
      { timestamp := 1, issueLabels := [],
        pullRequests := [(4, { title := "t", assignee := none, user := "u",
                               created := 0, state := "closed" })] }
      none).2 = true :=
  C10_pr_batch_forces_changed { timestamp := some 1 }
    { timestamp := 1, issueLabels := [],
      pullRequests := [(4, { title := "t", assignee := none, user := "u",
                             created := 0, state := "closed" })] }
    none (by decide)

/-! ### Claims C4 and C5: the in-progress report states -/

theorem _inState_tie (ct tl t created : Int) (phase : Phase) (ht : t ≠ 0) :
    _inState ct tl phase (some t) (some t) created =
      { reportState := rsIn phase, timer := tl - (ct - t) } := by
  have hf : falsy (some t) = false := by simp [falsy, ht]
  have hlt : jsLtO (some t) (some t) = false := by simp [jsLtO]
  simp only [_inState, hf, hlt, Bool.false_and, Bool.and_false, Bool.or_false,
    Bool.false_or, Bool.or_self, Bool.false_eq_true, if_false, jsVal, Option.getD_some,
    max_self]
  congr 1
  omega

/-- Claim C4 (counterexample): a PR in triage whose assignee and user
comments are tied at 100, inspected at time 300 with limit 100
(`elapsed = 200 > timeLimit`), is NOT reported "Overdue, In Triage" with
timer 100 as the claim requires; the source reports the non-overdue
"In Triage" label with a negative timer. -/
theorem C4_cex :
    ((300 : Int) - 100 > 100) ∧
    getReportState
      { state := PR_STATE_IN_TRIAGE, created := 0,
        latestUserComment := some 100, latestAssigneeComment := some 100 } 300 100 =
      some { reportState := RS_IN_TRIAGE, timer := -100 } ∧
    RS_IN_TRIAGE ≠ RS_OVERDUE_IN_TRIAGE := by
  decide

/-- Claim C4 (amended): for a PR in triage or in review whose
`latestAssigneeComment` equals its `latestUserComment` (both present), the
final `_inState` branch always applies: the report state is the non-overdue
"In Triage"/"In Review" label with `timer = timeLimit - (currentTime - t)`,
even when the elapsed time exceeds the limit (the timer then goes
negative; no overdue label is produced for ties). -/
theorem C4_tie_not_overdue (pr : ReportPR) (ct tl t : Int) (phase : Phase)
    (hstate : (pr.state = PR_STATE_IN_TRIAGE ∧ phase = Phase.TRIAGE) ∨
              (pr.state = PR_STATE_IN_REVIEW ∧ phase = Phase.REVIEW))
    (ha : pr.latestAssigneeComment = some t) (hu : pr.latestUserComment = some t)
    (ht : t ≠ 0) :
    getReportState pr ct tl = some { reportState := rsIn phase, timer := tl - (ct - t) } := by
  rcases hstate with ⟨hs, hp⟩ | ⟨hs, hp⟩ <;> subst hp
  · have h1 : ¬ pr.state = PR_STATE_NEW := by rw [hs]; decide
    simp only [getReportState, if_neg h1, if_pos hs, hu, ha]
    rw [_inState_tie ct tl t pr.created Phase.TRIAGE ht]
  · have h1 : ¬ pr.state = PR_STATE_NEW := by rw [hs]; decide
    have h2 : ¬ pr.state = PR_STATE_IN_TRIAGE := by rw [hs]; decide
    have h3 : ¬ pr.state = PR_STATE_TRIAGED := by rw [hs]; decide
    simp only [getReportState, if_neg h1, if_neg h2, if_neg h3, if_pos hs, hu, ha]
    rw [_inState_tie ct tl t pr.created Phase.REVIEW ht]

/-- Claim C4 (witness): a tie at 100 inspected at time 150 with limit 100
yields "In Triage" with timer 50. -/
theorem C4_tie_not_overdue_witness :
    getReportState
      { state := PR_STATE_IN_TRIAGE, created := 0,
        latestUserComment := some 100, latestAssigneeComment := some 100 } 150 100 =
      some { reportState := rsIn Phase.TRIAGE, timer := 100 - (150 - 100) } :=
  C4_tie_not_overdue
    { state := PR_STATE_IN_TRIAGE, created := 0,
      latestUserComment := some 100, latestAssigneeComment := some 100 }
    150 100 100 Phase.TRIAGE (Or.inl ⟨rfl, rfl⟩) rfl rfl (by decide)

/-- Claim C5 (counterexample): spec Scenario B (`state = in_triage`,
`latestAssigneeComment = 200`, `latestUserComment = 100`, `currentTime = 350`,
`timeLimit = 100`) does not produce "Overdue, In Triage": the source (and
its unit test "should identify user overdue in triage") produce
"Overdue from user, In Triage" with timer 50. -/
theorem C5_cex :
    getReportState
      { state := PR_STATE_IN_TRIAGE, created := 0,
        latestUserComment := some 100, latestAssigneeComment := some 200 } 350 100 =
      some { reportState := RS_OVERDUE_FROM_USER_IN_TRIAGE, timer := 50 } ∧
    RS_OVERDUE_FROM_USER_IN_TRIAGE ≠ RS_OVERDUE_IN_TRIAGE := by
  decide

/-- Claim C5 (amended): Scenario B returns
`{reportState: "Overdue from user, In Triage", timer: 50}` (for any
`created` timestamp of the PR). -/
theorem C5_scenario_b (created : Int) :
    getReportState
      { state := PR_STATE_IN_TRIAGE, created := created,
        latestUserComment := some 100, latestAssigneeComment := some 200 } 350 100 =
      some { reportState := RS_OVERDUE_FROM_USER_IN_TRIAGE, timer := 50 } := by
  have h1 : ¬ PR_STATE_IN_TRIAGE = PR_STATE_NEW := by decide
  simp only [getReportState, if_neg h1, if_pos rfl]
  have hfu : falsy (some (100 : Int)) = false := by decide
  have hfa : falsy (some (200 : Int)) = false := by decide
  have hlt1 : jsLtO (some (200 : Int)) (some 100) = false := by decide
  have hlt2 : jsLtO (some (100 : Int)) (some 200) = true := by decide
  simp only [_inState, hfu, hfa, hlt1, hlt2, Bool.false_and, Bool.and_false,
    Bool.or_false, Bool.false_or, Bool.true_and, Bool.false_eq_true, if_false, jsVal,
    Option.getD_some]
  norm_num [rsOverdueFromUserIn]

/-! ### Claim C6: overdue boundaries -/

/-- A PR state together with the phase `getReportState` dispatches it to. -/
def statePhase (s : String) (phase : Phase) : Prop :=
  (s = PR_STATE_IN_TRIAGE ∧ phase = Phase.TRIAGE) ∨
  (s = PR_STATE_IN_REVIEW ∧ phase = Phase.REVIEW)

theorem getReportState_inPhase (pr : ReportPR) (ct tl : Int) (phase : Phase)
    (h : statePhase pr.state phase) :
    getReportState pr ct tl =
      some (_inState ct tl phase pr.latestUserComment pr.latestAssigneeComment pr.created) := by
  rcases h with ⟨hs, hp⟩ | ⟨hs, hp⟩ <;> subst hp
  · have h1 : ¬ pr.state = PR_STATE_NEW := by rw [hs]; decide
    simp only [getReportState, if_neg h1, if_pos hs]
  · have h1 : ¬ pr.state = PR_STATE_NEW := by rw [hs]; decide
    have h2 : ¬ pr.state = PR_STATE_IN_TRIAGE := by rw [hs]; decide
    have h3 : ¬ pr.state = PR_STATE_TRIAGED := by rw [hs]; decide
    simp only [getReportState, if_neg h1, if_neg h2, if_neg h3, if_pos hs]

theorem _inState_no_assignee (ct tl created : Int) (phase : Phase) (u a : Option Int)
    (ha : falsy a = true) :
    _inState ct tl phase u a created =
      if ct - created > tl then
        { reportState := rsOverdueIn phase, timer := ct - created - tl }
      else
        { reportState := rsIn phase, timer := created - (ct - tl) } := by
  have hcond : ((falsy u && falsy a) || falsy a) = true := by rw [ha]; simp
  simp only [_inState, hcond]
  simp

theorem _inState_user_recent (ct tl created ta tu : Int) (phase : Phase)
    (hta : 0 < ta) (htu : 0 < tu) (hlt : ta < tu) :
    _inState ct tl phase (some tu) (some ta) created =
      if ct - tu > tl then
        { reportState := rsOverdueIn phase, timer := ct - tu - tl }
      else
        { reportState := rsIn phase, timer := tu - (ct - tl) } := by
  have hfu : falsy (some tu) = false := by simp [falsy]; omega
  have hfa : falsy (some ta) = false := by simp [falsy]; omega
  have hau : jsLtO (some ta) (some tu) = true := by simp [jsLtO]; omega
  have hua : jsLtO (some tu) (some ta) = false := by simp [jsLtO]; omega
  simp only [_inState, hfu, hfa, hau, hua, Bool.false_and, Bool.and_false,
    Bool.or_false, Bool.false_or, Bool.true_and, Bool.false_eq_true, if_false,
    jsVal, Option.getD_some, decide_eq_true_eq]
  by_cases hov : ct - tu > tl
  · rw [if_pos hov, if_pos hov]
  · rw [if_neg hov, if_neg hov, max_eq_right (le_of_lt hlt)]

theorem _inState_assignee_recent (ct tl created ta tu : Int) (phase : Phase)
    (hta : 0 < ta) (htu : 0 < tu) (hlt : tu < ta) :
    _inState ct tl phase (some tu) (some ta) created =
      if ct - ta > tl then
        { reportState := rsOverdueFromUserIn phase, timer := ct - ta - tl }
      else
        { reportState := rsIn phase, timer := ta - (ct - tl) } := by
  have hfu : falsy (some tu) = false := by simp [falsy]; omega
  have hfa : falsy (some ta) = false := by simp [falsy]; omega
  have hau : jsLtO (some ta) (some tu) = false := by simp [jsLtO]; omega
  have hua : jsLtO (some tu) (some ta) = true := by simp [jsLtO]; omega
  simp only [_inState, hfu, hfa, hau, hua, Bool.false_and, Bool.and_false,
    Bool.or_false, Bool.false_or, Bool.true_and, Bool.false_eq_true, if_false,
    jsVal, Option.getD_some, decide_eq_true_eq]
  by_cases hov : ct - ta > tl
  · rw [if_pos hov, if_pos hov]
  · rw [if_neg hov, if_neg hov, max_eq_left (le_of_lt hlt)]

theorem _inState_assignee_only (ct tl created ta : Int) (phase : Phase) (u : Option Int)
    (hu : falsy u = true) (hta : 0 < ta) :
    _inState ct tl phase u (some ta) created =
      if ct - ta < tl ∨ ct - created < tl then
        { reportState := rsIn phase, timer := ta - (ct - tl) }
      else
        { reportState := rsOverdueFromUserIn phase, timer := ct - ta - tl } := by
  have hfa : falsy (some ta) = false := by simp [falsy]; omega
  have hau : jsLtO (some ta) u = false := by
    rcases u with _ | tu
    · rfl
    · have htu : tu = 0 := by simpa [falsy] using hu
      subst htu
      simp only [jsLtO, decide_eq_false_iff_not, not_lt]
      omega
  simp only [_inState, hfa, hu, hau, Bool.and_false, Bool.false_and, Bool.or_false,
    Bool.true_and, Bool.true_or, Bool.false_eq_true, if_false, if_true,
    jsVal, Option.getD_some, decide_eq_true_eq, Bool.or_eq_true]

/-- Claim C6 (counterexample): the overdue boundary is NOT strict for every
report state.  A PR in triage whose assignee commented at 100 and whose
user never commented, inspected at time 200 with limit 100, has elapsed
time since the relevant reference event (the assignee comment) exactly
equal to the limit, yet is classified with the overdue label
"Overdue from user, In Triage" (timer 0). -/
theorem C6_cex :
    (200 : Int) - 100 = 100 ∧
    getReportState
      { state := PR_STATE_IN_TRIAGE, created := 50,
        latestAssigneeComment := some 100 } 200 100 =
      some { reportState := RS_OVERDUE_FROM_USER_IN_TRIAGE, timer := 0 } := by
  decide

/-- Claim C6 (amended): the overdue boundary, case by case.  For the
waiting states (`new` on `created`, `triaged` on `triageCompleted`) and for
the in-progress states with no assignee comment (reference `created`) or
with both comments present and distinct (reference the more recent
comment), `elapsed = timeLimit` is NOT overdue (timer `timeLimit - elapsed`)
and `elapsed = timeLimit + 1` is overdue (timer `elapsed - timeLimit`, with
the "Overdue from user" label when the assignee commented last).  The
exception: an in-progress PR with an assignee comment and no user comment
is already "Overdue from user" when `elapsed ≥ timeLimit` both from the
assignee comment and from `created` (non-strict boundary); ties of the two
comment timestamps never become overdue at all (claim C4). -/
theorem C6_boundary :
    (∀ (pr : ReportPR) (ct tl : Int), pr.state = PR_STATE_NEW →
      (ct - pr.created ≤ tl →
        getReportState pr ct tl =
          some { reportState := RS_AWAITING_TRIAGE, timer := tl - (ct - pr.created) }) ∧
      (ct - pr.created > tl →
        getReportState pr ct tl =
          some { reportState := RS_OVERDUE_AWAITING_TRIAGE,
                 timer := (ct - pr.created) - tl })) ∧
    (∀ (pr : ReportPR) (ct tl t : Int), pr.state = PR_STATE_TRIAGED →
      pr.triageCompleted = some t →
      (ct - t ≤ tl →
        getReportState pr ct tl =
          some { reportState := RS_AWAITING_REVIEW, timer := tl - (ct - t) }) ∧
      (ct - t > tl →
        getReportState pr ct tl =
          some { reportState := RS_OVERDUE_AWAITING_REVIEW, timer := (ct - t) - tl })) ∧
    (∀ (pr : ReportPR) (ct tl : Int) (phase : Phase), statePhase pr.state phase →
      falsy pr.latestAssigneeComment = true →
      (ct - pr.created ≤ tl →
        getReportState pr ct tl =
          some { reportState := rsIn phase, timer := tl - (ct - pr.created) }) ∧
      (ct - pr.created > tl →
        getReportState pr ct tl =
          some { reportState := rsOverdueIn phase, timer := (ct - pr.created) - tl })) ∧
    (∀ (pr : ReportPR) (ct tl ta tu : Int) (phase : Phase), statePhase pr.state phase →
      pr.latestAssigneeComment = some ta → pr.latestUserComment = some tu →
      0 < ta → 0 < tu → ta ≠ tu →
      (ct - max ta tu ≤ tl →
        getReportState pr ct tl =
          some { reportState := rsIn phase, timer := tl - (ct - max ta tu) }) ∧
      (ct - max ta tu > tl → ta < tu →
        getReportState pr ct tl =
          some { reportState := rsOverdueIn phase, timer := (ct - max ta tu) - tl }) ∧
      (ct - max ta tu > tl → tu < ta →
        getReportState pr ct tl =
          some { reportState := rsOverdueFromUserIn phase,
                 timer := (ct - max ta tu) - tl })) ∧
    (∀ (pr : ReportPR) (ct tl ta : Int) (phase : Phase), statePhase pr.state phase →
      pr.latestAssigneeComment = some ta → falsy pr.latestUserComment = true →
      0 < ta → tl ≤ ct - ta → tl ≤ ct - pr.created →
      getReportState pr ct tl =
        some { reportState := rsOverdueFromUserIn phase, timer := (ct - ta) - tl }) := by
  refine ⟨?_, ?_, ?_, ?_, ?_⟩
  · intro pr ct tl hs
    simp only [getReportState, if_pos hs, _waitingState]
    constructor
    · intro hle
      rw [if_neg (by omega)]
      have h : pr.created - (ct - tl) = tl - (ct - pr.created) := by omega
      rw [h]
      rfl
    · intro hgt
      rw [if_pos hgt]
      rfl
  · intro pr ct tl t hs ht
    have h1 : ¬ pr.state = PR_STATE_NEW := by rw [hs]; decide
    have h2 : ¬ pr.state = PR_STATE_IN_TRIAGE := by rw [hs]; decide
    simp only [getReportState, if_neg h1, if_neg h2, if_pos hs, _waitingState, ht,
      jsVal, Option.getD_some]
    constructor
    · intro hle
      rw [if_neg (by omega)]
      have h : t - (ct - tl) = tl - (ct - t) := by omega
      rw [h]
      rfl
    · intro hgt
      rw [if_pos hgt]
      rfl
  · intro pr ct tl phase hsp ha
    rw [getReportState_inPhase pr ct tl phase hsp,
      _inState_no_assignee ct tl pr.created phase pr.latestUserComment
        pr.latestAssigneeComment ha]
    constructor
    · intro hle
      rw [if_neg (by omega)]
      have h : pr.created - (ct - tl) = tl - (ct - pr.created) := by omega
      rw [h]
    · intro hgt
      rw [if_pos hgt]
  · intro pr ct tl ta tu phase hsp ha hu hta htu hne
    rw [getReportState_inPhase pr ct tl phase hsp, ha, hu]
    rcases lt_or_gt_of_ne hne with hlt | hlt
    · rw [_inState_user_recent ct tl pr.created ta tu phase hta htu hlt]
      have hmax : max ta tu = tu := max_eq_right (le_of_lt hlt)
      rw [hmax]
      refine ⟨?_, ?_, ?_⟩
      · intro hle
        rw [if_neg (by omega)]
        have h : tu - (ct - tl) = tl - (ct - tu) := by omega
        rw [h]
      · intro hgt _
        rw [if_pos (by omega)]
      · intro _ hlt2
        exact absurd hlt (by omega)
    · rw [_inState_assignee_recent ct tl pr.created ta tu phase hta htu hlt]
      have hmax : max ta tu = ta := max_eq_left (le_of_lt hlt)
      rw [hmax]
      refine ⟨?_, ?_, ?_⟩
      · intro hle
        rw [if_neg (by omega)]
        have h : ta - (ct - tl) = tl - (ct - ta) := by omega
        rw [h]
      · intro _ hlt2
        exact absurd hlt (by omega)
      · intro hgt _
        rw [if_pos (by omega)]
  · intro pr ct tl ta phase hsp ha hu hta h1 h2
    rw [getReportState_inPhase pr ct tl phase hsp, ha,
      _inState_assignee_only ct tl pr.created ta phase pr.latestUserComment hu hta]
    rw [if_neg (by omega)]

/-- Claim C6 (witness): the amended boundary theorem applied at the exact
boundary of the `new` state: `created = 100`, `currentTime = 200`,
`timeLimit = 100` is classified "Awaiting Triage" with timer 0. -/
theorem C6_boundary_witness :
    getReportState { state := PR_STATE_NEW, created := 100 } 200 100 =
      some { reportState := RS_AWAITING_TRIAGE,
             timer := 100 - ((200 : Int) - 100) } :=
  (C6_boundary.1 { state := PR_STATE_NEW, created := 100 } 200 100 rfl).1 (by decide)

/-! ### Claim C7: the PR classifier of `getLatestIssueInfo` -/

/-- Helper for lodash `_.intersection`: keep the first occurrence of each
value, tracking values already seen. -/
def dedupAcc (seen : List String) : List String → List String
  | [] => []
  | x :: xs => if x ∈ seen then dedupAcc seen xs else x :: dedupAcc (x :: seen) xs

/-- lodash `_.intersection(a, b)`: the unique values of `a` also present in
`b`, in the order of `a`. -/
def lodashIntersection (a b : List String) : List String :=
  dedupAcc [] (a.filter (fun x => x ∈ b))

/-- JS truthiness of `pr.assignee` (a login string or `null`). -/
def truthyStr (s : Option String) : Bool :=
  match s with
  | some s => s ≠ ""
  | none => false

/-- The configuration fields read by the classifier. -/
structure ClassifierConfig where
  labels : List String
  triageCompleteLabel : Option String := none
  deriving DecidableEq, Repr

/-- The JS guard `config.triageCompleteLabel && issueLabels.indexOf(config.triageCompleteLabel) > -1`
(an unset or empty-string label is falsy). -/
def hasTriageCompleteLabel (cfg : ClassifierConfig) (issueLabels : List String) : Bool :=
  match cfg.triageCompleteLabel with
  | some l => l ≠ "" && l ∈ issueLabels
  | none => false

/-- The per-issue PR state classification of `getLatestIssueInfo`
(tracker-utils.js lines 380-402): `issueLabels` is the intersection of the
issue's raw labels with the tracked allowlist, and the triage-complete
check is made against that intersection. -/
def classifyPR (cfg : ClassifierConfig) (rawState : String) (assignee : Option String)
    (rawLabels : List String) : String :=
  let issueLabels := lodashIntersection rawLabels cfg.labels
  if rawState = "closed" then "closed"
  else if truthyStr assignee then
    if hasTriageCompleteLabel cfg issueLabels then PR_STATE_IN_REVIEW
    else PR_STATE_IN_TRIAGE
  else
    if hasTriageCompleteLabel cfg issueLabels then PR_STATE_TRIAGED
    else PR_STATE_NEW

theorem mem_dedupAcc {x : String} :
    ∀ (seen l : List String), x ∈ dedupAcc seen l ↔ x ∈ l ∧ ¬ x ∈ seen := by
  intro seen l
  induction l generalizing seen with
  | nil => simp [dedupAcc]
  | cons y ys ih =>
    by_cases hy : y ∈ seen
    · rw [dedupAcc, if_pos hy, ih]
      constructor
      · rintro ⟨h1, h2⟩
        exact ⟨List.mem_cons_of_mem _ h1, h2⟩
      · rintro ⟨h1, h2⟩
        rcases List.mem_cons.mp h1 with h | h
        · exact absurd (h ▸ hy) h2
        · exact ⟨h, h2⟩
    · rw [dedupAcc, if_neg hy]
      by_cases hx : x = y
      · subst hx
        simp [hy]
      · rw [List.mem_cons]
        simp only [hx, false_or]
        rw [ih]
        simp [hx, hy, List.mem_cons]

theorem mem_lodashIntersection {x : String} {a b : List String} :
    x ∈ lodashIntersection a b ↔ x ∈ a ∧ x ∈ b := by
  rw [lodashIntersection, mem_dedupAcc]
  simp

/-- The claim-side notion "a configured triage-complete label is present
among the issue's tracked labels". -/
def TCPresent (cfg : ClassifierConfig) (rawLabels : List String) : Prop :=
  ∃ l, cfg.triageCompleteLabel = some l ∧ l ≠ "" ∧ l ∈ rawLabels ∧ l ∈ cfg.labels

theorem hasTriageCompleteLabel_iff (cfg : ClassifierConfig) (rawLabels : List String) :
    hasTriageCompleteLabel cfg (lodashIntersection rawLabels cfg.labels) = true ↔
      TCPresent cfg rawLabels := by
  rcases hl : cfg.triageCompleteLabel with _ | l
  · simp [hasTriageCompleteLabel, hl, TCPresent]
  · simp only [hasTriageCompleteLabel, hl, TCPresent, Bool.and_eq_true, decide_eq_true_eq,
      mem_lodashIntersection]
    constructor
    · rintro ⟨h1, h2, h3⟩
      exact ⟨l, rfl, by simpa using h1, h2, h3⟩
    · rintro ⟨l2, hl2, h1, h2, h3⟩
      cases Option.some.inj hl2
      exact ⟨by simpa using h1, h2, h3⟩

instance (cfg : ClassifierConfig) (rawLabels : List String) :
    Decidable (TCPresent cfg rawLabels) :=
  decidable_of_iff _ (hasTriageCompleteLabel_iff cfg rawLabels)

/-- Claim C7 (counterexample): the triage-complete check is made against
the issue's TRACKED labels (intersection with the configured allowlist),
not against the raw labels on the issue.  With a configured
`triageCompleteLabel = "tc"` that is not in the tracked allowlist, an
assigned open PR carrying "tc" is classified `in triage`, not `in review`
as the claim's rule 2 requires. -/
theorem C7_cex :
    "tc" ∈ (["tc"] : List String) ∧
    classifyPR { labels := [], triageCompleteLabel := some "tc" } "open" (some "u") ["tc"] =
      PR_STATE_IN_TRIAGE ∧
    PR_STATE_IN_TRIAGE ≠ PR_STATE_IN_REVIEW := by
  decide

/-- Claim C7 (amended): the ordered classifier rules hold with "the
configured triage-complete label present" read as "present among the
issue's tracked labels" (its raw labels intersected with the configured
allowlist): closed wins; else with an assignee the label gives
`in review` / otherwise `in triage`; else the label gives `triaged` /
otherwise `new`; and when no `triageCompleteLabel` is configured the
classifier never yields `in review` or `triaged`. -/
theorem C7_classifier_rules (cfg : ClassifierConfig) (rawState : String)
    (assignee : Option String) (rawLabels : List String) :
    (rawState = "closed" →
      classifyPR cfg rawState assignee rawLabels = "closed") ∧
    (rawState ≠ "closed" → truthyStr assignee = true →
      (TCPresent cfg rawLabels →
        classifyPR cfg rawState assignee rawLabels = PR_STATE_IN_REVIEW) ∧
      (¬ TCPresent cfg rawLabels →
        classifyPR cfg rawState assignee rawLabels = PR_STATE_IN_TRIAGE)) ∧
    (rawState ≠ "closed" → truthyStr assignee = false →
      (TCPresent cfg rawLabels →
        classifyPR cfg rawState assignee rawLabels = PR_STATE_TRIAGED) ∧
      (¬ TCPresent cfg rawLabels →
        classifyPR cfg rawState assignee rawLabels = PR_STATE_NEW)) ∧
    (cfg.triageCompleteLabel = none →
      classifyPR cfg rawState assignee rawLabels ≠ PR_STATE_IN_REVIEW ∧
      classifyPR cfg rawState assignee rawLabels ≠ PR_STATE_TRIAGED) := by
  refine ⟨?_, ?_, ?_, ?_⟩
  · intro hs
    simp [classifyPR, hs]
  · intro hs hass
    constructor
    · intro htc
      rw [← hasTriageCompleteLabel_iff] at htc
      simp [classifyPR, hs, hass, htc]
    · intro htc
      rw [← hasTriageCompleteLabel_iff] at htc
      simp only [Bool.not_eq_true] at htc
      simp [classifyPR, hs, hass, htc]
  · intro hs hass
    constructor
    · intro htc
      rw [← hasTriageCompleteLabel_iff] at htc
      simp [classifyPR, hs, hass, htc]
    · intro htc
      rw [← hasTriageCompleteLabel_iff] at htc
      simp only [Bool.not_eq_true] at htc
      simp [classifyPR, hs, hass, htc]
  · intro hnone
    have htc : hasTriageCompleteLabel cfg (lodashIntersection rawLabels cfg.labels) = false := by
      simp [hasTriageCompleteLabel, hnone]
    by_cases hs : rawState = "closed"
    · constructor <;> simp [classifyPR, hs] <;> decide
    · by_cases hass : truthyStr assignee = true
      · constructor <;> simp [classifyPR, hs, hass, htc] <;> decide
      · rw [Bool.not_eq_true] at hass
        constructor <;> simp [classifyPR, hs, hass, htc] <;> decide

/-- Claim C7 (witness): the amended rules applied to a closed PR and to an
assigned open PR with the tracked triage-complete label present. -/
theorem C7_classifier_rules_witness :
    classifyPR { labels := ["tc"], triageCompleteLabel := some "tc" } "closed" none [] =
      "closed" ∧
    classifyPR { labels := ["tc"], triageCompleteLabel := some "tc" } "open" (some "u")
        ["tc", "other"] = PR_STATE_IN_REVIEW :=
  ⟨(C7_classifier_rules { labels := ["tc"], triageCompleteLabel := some "tc" }
      "closed" none []).1 rfl,
   ((C7_classifier_rules { labels := ["tc"], triageCompleteLabel := some "tc" }
      "open" (some "u") ["tc", "other"]).2.1 (by decide) (by decide)).1 (by decide)⟩

/-! ### report-utils.js: `sortIntoSections` -/

/-- The fields of a report entry read by `sortIntoSections`. -/
structure SectionEntry where
  reportState : String
  timer : Int
  old : Bool := false
  deriving DecidableEq, Repr

/-- One section of the report; `name` models the `section` field of the
source's section objects. -/
structure ReportSection where
  name : String
  pullRequests : List SectionEntry
  deriving DecidableEq, Repr

/-- The effective section label of an entry: prefixed with "Old " when the
entry is marked old. -/
def effLabel (pr : SectionEntry) : String :=
  if pr.old then "Old " ++ pr.reportState else pr.reportState

/-- One step of the grouping loop of `sortIntoSections`
(report-utils.js lines 169-184): push the entry onto its section, creating
the section at the end when absent (JS object key insertion order). -/
def addToSections : List ReportSection → SectionEntry → List ReportSection
  | [], pr => [{ name := effLabel pr, pullRequests := [pr] }]
  | s :: rest, pr =>
    if s.name = effLabel pr then
      { name := s.name, pullRequests := s.pullRequests ++ [pr] } :: rest
    else
      s :: addToSections rest pr

/-- The grouping stage of `sortIntoSections`. -/
def groupSections (prs : List SectionEntry) : List ReportSection :=
  prs.foldl addToSections []

/-- Whether `pat` is an initial segment of the character list. -/
def matchesAt : List Char → List Char → Bool
  | [], _ => true
  | _ :: _, [] => false
  | c :: cs, d :: ds => c = d && matchesAt cs ds

/-- Substring search over character lists. -/
def containsList : List Char → List Char → Bool
  | needle, [] => needle.isEmpty
  | needle, d :: ds => matchesAt needle (d :: ds) || containsList needle ds

/-- The JS test `s.indexOf(needle) > -1`. -/
def containsStr (needle s : String) : Bool :=
  containsList needle.toList s.toList

/-- The JS test `s.substr(0, 3) === "Old"`. -/
def isOldName (s : String) : Bool :=
  s.toList.take 3 = "Old".toList

/-- Drop the first occurrence of `pat` from a character list (the JS
`s.replace(pat, "")`, which replaces only the first occurrence). -/
def dropFirstMatch (pat : List Char) : List Char → List Char
  | [] => []
  | d :: ds => if matchesAt pat (d :: ds) then (d :: ds).drop pat.length
               else d :: dropFirstMatch pat ds

/-- The JS `s.replace("Old ", "")`. -/
def stripOld (s : String) : String :=
  String.mk (dropFirstMatch "Old ".toList s.toList)

/-- The `SECTION_SORT_ORDER` table (report-utils.js lines 43-53). -/
def sectionOrderTable : List (String × Nat) :=
  [(RS_OVERDUE_AWAITING_REVIEW, 0), (RS_OVERDUE_AWAITING_TRIAGE, 1),
   (RS_AWAITING_TRIAGE, 2), (RS_AWAITING_REVIEW, 3), (RS_OVERDUE_IN_REVIEW, 4),
   (RS_OVERDUE_IN_TRIAGE, 5), (RS_OVERDUE_FROM_USER_IN_REVIEW, 6),
   (RS_OVERDUE_FROM_USER_IN_TRIAGE, 7), (RS_IN_REVIEW, 8), (RS_IN_TRIAGE, 9)]

/-- `SECTION_SORT_ORDER[s]` (`none` models the JS `undefined`). -/
def orderOf (s : String) : Option Nat :=
  (sectionOrderTable.find? (fun p => p.1 = s)).map Prod.snd

/-- JS `<` on possibly-undefined order values. -/
def jsLtN : Option Nat → Option Nat → Bool
  | some a, some b => a < b
  | _, _ => false

/-- The section-name comparator of `sortIntoSections`
(report-utils.js lines 199-217).  The source throws
"Section sort orders were equal!" in the final case; that case is
unreachable for distinct names drawn from the fixed label set, and is
modelled as `0`. -/
def sectionCmp (s1 s2 : String) : Int :=
  let s1Old := isOldName s1
  let s2Old := isOldName s2
  if s1Old && !s2Old then 1
  else if !s1Old && s2Old then -1
  else
    let p1 := orderOf (stripOld s1)
    let p2 := orderOf (stripOld s2)
    if jsLtN p1 p2 then -1
    else if jsLtN p2 p1 then 1
    else 0

/-- Ascending-timer comparison (the JS timer comparator with multiplier 1). -/
def timerLe (a b : SectionEntry) : Prop := a.timer ≤ b.timer

/-- Descending-timer comparison (the JS timer comparator with multiplier -1,
used when the section name contains "Overdue"). -/
def timerGe (a b : SectionEntry) : Prop := b.timer ≤ a.timer

instance : DecidableRel timerLe := fun _ _ => inferInstanceAs (Decidable (_ ≤ _))

instance : DecidableRel timerGe := fun _ _ => inferInstanceAs (Decidable (_ ≤ _))

instance : IsTotal SectionEntry timerLe := ⟨fun a b => Int.le_total a.timer b.timer⟩

instance : IsTotal SectionEntry timerGe := ⟨fun a b => Int.le_total b.timer a.timer⟩

instance : IsTrans SectionEntry timerLe := ⟨fun _ _ _ hab hbc => le_trans hab hbc⟩

instance : IsTrans SectionEntry timerGe := ⟨fun _ _ _ hab hbc => le_trans hbc hab⟩

/-- The within-section timer sort of `sortIntoSections`
(report-utils.js lines 186-197): descending when the section name contains
"Overdue", ascending otherwise. -/
def sortSection (sec : ReportSection) : ReportSection :=
  if containsStr "Overdue" sec.name then
    { name := sec.name, pullRequests := List.insertionSort timerGe sec.pullRequests }
  else
    { name := sec.name, pullRequests := List.insertionSort timerLe sec.pullRequests }

/-- The section order used for the final key sort. -/
def sectionLe (s1 s2 : ReportSection) : Prop := sectionCmp s1.name s2.name ≤ 0

instance : DecidableRel sectionLe := fun _ _ => inferInstanceAs (Decidable (_ ≤ _))

/-- `exports.sortIntoSections(pullRequests)` (report-utils.js lines
167-221): group, sort within each section by timer, then order the
sections by the name comparator. -/
def sortIntoSections (prs : List SectionEntry) : List ReportSection :=
  List.insertionSort sectionLe ((groupSections prs).map sortSection)

/-- The ten report-state labels, in `SECTION_SORT_ORDER` priority order. -/
def baseNames : List String :=
  [RS_OVERDUE_AWAITING_REVIEW, RS_OVERDUE_AWAITING_TRIAGE, RS_AWAITING_TRIAGE,
   RS_AWAITING_REVIEW, RS_OVERDUE_IN_REVIEW, RS_OVERDUE_IN_TRIAGE,
   RS_OVERDUE_FROM_USER_IN_REVIEW, RS_OVERDUE_FROM_USER_IN_TRIAGE,
   RS_IN_REVIEW, RS_IN_TRIAGE]

/-- All section names arising from the fixed label set: the ten labels and
their "Old " variants. -/
def allSectionNames : List String :=
  baseNames ++ baseNames.map (fun s => "Old " ++ s)

/-- The fixed priority of a section name as stated by the spec: "Old "
sections rank after all non-old sections, with the same relative
`SECTION_SORT_ORDER` priority. -/
def sectionRank (s : String) : Nat :=
  (if isOldName s then 10 else 0) + (orderOf (stripOld s)).getD 0

/-! ### Claim C8: lemmas about grouping and sorting -/

theorem sectionCmp_rank_agree :
    ∀ s1 ∈ allSectionNames, ∀ s2 ∈ allSectionNames,
      (sectionCmp s1 s2 ≤ 0 ↔ sectionRank s1 ≤ sectionRank s2) ∧
      (s1 ≠ s2 → sectionRank s1 ≠ sectionRank s2) := by
  decide

theorem effLabel_mem_allSectionNames (pr : SectionEntry)
    (h : pr.reportState ∈ baseNames) : effLabel pr ∈ allSectionNames := by
  unfold effLabel
  by_cases ho : pr.old
  · simp only [ho, if_true, allSectionNames, List.mem_append]
    exact Or.inr (List.mem_map.mpr ⟨pr.reportState, h, rfl⟩)
  · simp only [ho, if_false, allSectionNames, List.mem_append]
    exact Or.inl h

theorem addToSections_name_list (secs : List ReportSection) (pr : SectionEntry) :
    (addToSections secs pr).map ReportSection.name =
      if effLabel pr ∈ secs.map ReportSection.name then secs.map ReportSection.name
      else secs.map ReportSection.name ++ [effLabel pr] := by
  induction secs with
  | nil => simp [addToSections]
  | cons s rest ih =>
    by_cases h : s.name = effLabel pr
    · simp [addToSections, h]
    · have hne : ¬ effLabel pr = s.name := fun he => h he.symm
      simp only [addToSections, if_neg h, List.map_cons, ih]
      by_cases h2 : effLabel pr ∈ rest.map ReportSection.name
      · rw [if_pos h2, if_pos (by simp [h2])]
      · rw [if_neg h2, if_neg (by simp [hne, h2])]
        simp

theorem addToSections_mem_new (secs : List ReportSection) (pr : SectionEntry) :
    ∃ sec ∈ addToSections secs pr, pr ∈ sec.pullRequests := by
  induction secs with
  | nil =>
    exact ⟨{ name := effLabel pr, pullRequests := [pr] }, by simp [addToSections], by simp⟩
  | cons s rest ih =>
    by_cases h : s.name = effLabel pr
    · exact ⟨{ name := s.name, pullRequests := s.pullRequests ++ [pr] },
        by simp [addToSections, h], by simp⟩
    · obtain ⟨sec, hsec, hmem⟩ := ih
      exact ⟨sec, by simp [addToSections, h, hsec], hmem⟩

theorem addToSections_mem_old (secs : List ReportSection) (pr x : SectionEntry)
    (sec0 : ReportSection) (h0 : sec0 ∈ secs) (hx : x ∈ sec0.pullRequests) :
    ∃ sec ∈ addToSections secs pr, x ∈ sec.pullRequests := by
  induction secs with
  | nil => simp at h0
  | cons s rest ih =>
    by_cases h : s.name = effLabel pr
    · rcases List.mem_cons.mp h0 with rfl | h0
      · exact ⟨{ name := sec0.name, pullRequests := sec0.pullRequests ++ [pr] },
          by simp [addToSections, h], by simp [hx]⟩
      · exact ⟨sec0, by simp [addToSections, h, h0], hx⟩
    · rcases List.mem_cons.mp h0 with rfl | h0
      · exact ⟨sec0, by simp [addToSections, h], hx⟩
      · obtain ⟨sec, hsec, hmem⟩ := ih h0
        exact ⟨sec, by simp [addToSections, h, hsec], hmem⟩

theorem addToSections_entries (secs : List ReportSection) (pr : SectionEntry)
    (sec : ReportSection) (x : SectionEntry) (hs : sec ∈ addToSections secs pr)
    (hx : x ∈ sec.pullRequests) :
    x = pr ∨ ∃ sec' ∈ secs, x ∈ sec'.pullRequests := by
  induction secs generalizing sec with
  | nil =>
    simp only [addToSections, List.mem_singleton] at hs
    subst hs
    rcases List.mem_singleton.mp hx with rfl
    exact Or.inl rfl
  | cons s rest ih =>
    by_cases h : s.name = effLabel pr
    · rw [addToSections, if_pos h] at hs
      rcases List.mem_cons.mp hs with rfl | hs
      · rcases List.mem_append.mp hx with hx | hx
        · exact Or.inr ⟨s, by simp, hx⟩
        · exact Or.inl (List.mem_singleton.mp hx)
      · exact Or.inr ⟨sec, by simp [hs], hx⟩
    · rw [addToSections, if_neg h] at hs
      rcases List.mem_cons.mp hs with rfl | hs
      · exact Or.inr ⟨sec, by simp, hx⟩
      · rcases ih sec hs hx with h1 | ⟨sec', hsec', hmem'⟩
        · exact Or.inl h1
        · exact Or.inr ⟨sec', by simp [hsec'], hmem'⟩

theorem addToSections_labels (secs : List ReportSection) (pr : SectionEntry)
    (h : ∀ sec ∈ secs, ∀ x ∈ sec.pullRequests, effLabel x = sec.name) :
    ∀ sec ∈ addToSections secs pr, ∀ x ∈ sec.pullRequests, effLabel x = sec.name := by
  induction secs with
  | nil =>
    intro sec hsec x hx
    simp only [addToSections, List.mem_singleton] at hsec
    subst hsec
    rcases List.mem_singleton.mp hx with rfl
    rfl
  | cons s rest ih =>
    intro sec hsec x hx
    by_cases hn : s.name = effLabel pr
    · rw [addToSections, if_pos hn] at hsec
      rcases List.mem_cons.mp hsec with rfl | hsec
      · rcases List.mem_append.mp hx with hx | hx
        · exact h s (by simp) x hx
        · rcases List.mem_singleton.mp hx with rfl
          exact hn.symm
      · exact h sec (by simp [hsec]) x hx
    · rw [addToSections, if_neg hn] at hsec
      rcases List.mem_cons.mp hsec with rfl | hsec
      · exact h sec (by simp) x hx
      · exact ih (fun sec' hsec' => h sec' (by simp [hsec'])) sec hsec x hx

theorem addToSections_nonempty (secs : List ReportSection) (pr : SectionEntry)
    (h : ∀ sec ∈ secs, sec.pullRequests ≠ []) :
    ∀ sec ∈ addToSections secs pr, sec.pullRequests ≠ [] := by
  induction secs with
  | nil =>
    intro sec hsec
    simp only [addToSections, List.mem_singleton] at hsec
    subst hsec
    simp
  | cons s rest ih =>
    intro sec hsec
    by_cases hn : s.name = effLabel pr
    · rw [addToSections, if_pos hn] at hsec
      rcases List.mem_cons.mp hsec with rfl | hsec
      · simp
      · exact h sec (by simp [hsec])
    · rw [addToSections, if_neg hn] at hsec
      rcases List.mem_cons.mp hsec with rfl | hsec
      · exact h sec (by simp)
      · exact ih (fun sec' hsec' => h sec' (by simp [hsec'])) sec hsec

theorem foldSections_nodup (prs : List SectionEntry) :
    ∀ (secs : List ReportSection), (secs.map ReportSection.name).Nodup →
      ((prs.foldl addToSections secs).map ReportSection.name).Nodup := by
  induction prs with
  | nil => intro secs h; exact h
  | cons pr rest ih =>
    intro secs h
    rw [List.foldl_cons]
    apply ih
    rw [addToSections_name_list]
    by_cases h2 : effLabel pr ∈ secs.map ReportSection.name
    · rw [if_pos h2]; exact h
    · rw [if_neg h2]
      simp [List.nodup_append, h, h2]

theorem foldSections_mem_old (prs : List SectionEntry) :
    ∀ (secs : List ReportSection) (sec0 : ReportSection) (x : SectionEntry),
      sec0 ∈ secs → x ∈ sec0.pullRequests →
      ∃ sec ∈ prs.foldl addToSections secs, x ∈ sec.pullRequests := by
  induction prs with
  | nil => intro secs sec0 x h0 hx; exact ⟨sec0, h0, hx⟩
  | cons pr rest ih =>
    intro secs sec0 x h0 hx
    rw [List.foldl_cons]
    obtain ⟨sec1, hsec1, hmem1⟩ := addToSections_mem_old secs pr x sec0 h0 hx
    exact ih (addToSections secs pr) sec1 x hsec1 hmem1

theorem foldSections_complete (prs : List SectionEntry) :
    ∀ (secs : List ReportSection) (pr : SectionEntry), pr ∈ prs →
      ∃ sec ∈ prs.foldl addToSections secs, pr ∈ sec.pullRequests := by
  induction prs with
  | nil => intro _ _ h; simp at h
  | cons q rest ih =>
    intro secs pr hmem
    rw [List.foldl_cons]
    rcases List.mem_cons.mp hmem with rfl | hmem
    · obtain ⟨sec1, hsec1, hmem1⟩ := addToSections_mem_new secs pr
      exact foldSections_mem_old rest (addToSections secs pr) sec1 pr hsec1 hmem1
    · exact ih (addToSections secs q) pr hmem

theorem foldSections_entries (prs : List SectionEntry) :
    ∀ (secs : List ReportSection) (sec : ReportSection) (x : SectionEntry),
      sec ∈ prs.foldl addToSections secs → x ∈ sec.pullRequests →
      (∃ sec' ∈ secs, x ∈ sec'.pullRequests) ∨ x ∈ prs := by
  induction prs with
  | nil => intro secs sec x hs hx; exact Or.inl ⟨sec, hs, hx⟩
  | cons q rest ih =>
    intro secs sec x hs hx
    rw [List.foldl_cons] at hs
    rcases ih (addToSections secs q) sec x hs hx with ⟨sec', hsec', hmem'⟩ | hmem
    · rcases addToSections_entries secs q sec' x hsec' hmem' with rfl | ⟨sec'', h1, h2⟩
      · exact Or.inr (by simp)
      · exact Or.inl ⟨sec'', h1, h2⟩
    · exact Or.inr (by simp [hmem])

theorem foldSections_labels (prs : List SectionEntry) :
    ∀ (secs : List ReportSection),
      (∀ sec ∈ secs, ∀ x ∈ sec.pullRequests, effLabel x = sec.name) →
      ∀ sec ∈ prs.foldl addToSections secs, ∀ x ∈ sec.pullRequests,
        effLabel x = sec.name := by
  induction prs with
  | nil => intro secs h; exact h
  | cons q rest ih =>
    intro secs h
    rw [List.foldl_cons]
    exact ih (addToSections secs q) (addToSections_labels secs q h)

theorem foldSections_nonempty (prs : List SectionEntry) :
    ∀ (secs : List ReportSection), (∀ sec ∈ secs, sec.pullRequests ≠ []) →
      ∀ sec ∈ prs.foldl addToSections secs, sec.pullRequests ≠ [] := by
  induction prs with
  | nil => intro secs h; exact h
  | cons q rest ih =>
    intro secs h
    rw [List.foldl_cons]
    exact ih (addToSections secs q) (addToSections_nonempty secs q h)

theorem sortSection_name (sec : ReportSection) : (sortSection sec).name = sec.name := by
  unfold sortSection
  split <;> rfl

theorem sortSection_mem (sec : ReportSection) (x : SectionEntry) :
    x ∈ (sortSection sec).pullRequests ↔ x ∈ sec.pullRequests := by
  unfold sortSection
  split <;> simp

theorem sortSection_sorted (sec : ReportSection) :
    (containsStr "Overdue" (sortSection sec).name = true →
      (sortSection sec).pullRequests.Pairwise timerGe) ∧
    (containsStr "Overdue" (sortSection sec).name = false →
      (sortSection sec).pullRequests.Pairwise timerLe) := by
  rw [sortSection_name]
  unfold sortSection
  by_cases h : containsStr "Overdue" sec.name = true
  · rw [if_pos h]
    exact ⟨fun _ => List.sorted_insertionSort timerGe sec.pullRequests,
      fun hf => absurd h (by simp [hf])⟩
  · rw [if_neg h]
    exact ⟨fun ht => absurd ht h,
      fun _ => List.sorted_insertionSort timerLe sec.pullRequests⟩

theorem pairwise_orderedInsert_of_mem {α : Type} (le : α → α → Prop) [DecidableRel le]
    (P : α → Prop)
    (htot : ∀ a b, P a → P b → le a b ∨ le b a)
    (htrans : ∀ a b c, P a → P b → P c → le a b → le b c → le a c) :
    ∀ (l : List α) (a : α), P a → (∀ x ∈ l, P x) → l.Pairwise le →
      (l.orderedInsert le a).Pairwise le := by
  intro l
  induction l with
  | nil =>
    intro a _ _ _
    simp [List.orderedInsert]
  | cons b bs ih =>
    intro a hPa hPl hpw
    rw [List.orderedInsert]
    by_cases hab : le a b
    · rw [if_pos hab]
      refine List.pairwise_cons.mpr ⟨?_, hpw⟩
      intro x hx
      rcases List.mem_cons.mp hx with rfl | hx
      · exact hab
      · exact htrans a b x hPa (hPl b (by simp)) (hPl x (by simp [hx])) hab
          ((List.pairwise_cons.mp hpw).1 x hx)
    · rw [if_neg hab]
      have hba : le b a := (htot a b hPa (hPl b (by simp))).resolve_left hab
      have hpw' := List.pairwise_cons.mp hpw
      refine List.pairwise_cons.mpr ⟨?_, ?_⟩
      · intro x hx
        rcases (List.mem_orderedInsert le).mp hx with rfl | hx
        · exact hba
        · exact hpw'.1 x hx
      · exact ih a hPa (fun x hx => hPl x (by simp [hx])) hpw'.2

theorem pairwise_insertionSort_of_mem {α : Type} (le : α → α → Prop) [DecidableRel le]
    (P : α → Prop)
    (htot : ∀ a b, P a → P b → le a b ∨ le b a)
    (htrans : ∀ a b c, P a → P b → P c → le a b → le b c → le a c) :
    ∀ (l : List α), (∀ x ∈ l, P x) → (List.insertionSort le l).Pairwise le := by
  intro l
  induction l with
  | nil =>
    intro _
    simp [List.insertionSort]
  | cons a as ih =>
    intro hPl
    rw [List.insertionSort]
    exact pairwise_orderedInsert_of_mem le P htot htrans _ a (hPl a (by simp))
      (fun x hx => hPl x (by simp [(List.mem_insertionSort le).mp hx]))
      (ih (fun x hx => hPl x (by simp [hx])))

/-- Claim C8: `sortIntoSections` groups the entries into one section per
distinct effective label ("Old "-prefixed for old entries; section names
come out distinct, every entry lands in the section carrying its label),
sorts each section's entries by timer — descending when the section name
contains "Overdue", ascending otherwise — and returns the sections in
strictly increasing fixed priority (the `SECTION_SORT_ORDER` table, with
every "Old " section after every non-old section at the same relative
priority); and on one PR per distinct report state, all with timer 1, the
sections come out in exactly the fixed priority order. -/
theorem C8_sort_into_sections :
    (∀ prs : List SectionEntry,
      ((sortIntoSections prs).map ReportSection.name).Nodup ∧
      (∀ sec ∈ sortIntoSections prs, ∀ x ∈ sec.pullRequests, effLabel x = sec.name) ∧
      (∀ pr ∈ prs, ∃ sec ∈ sortIntoSections prs, pr ∈ sec.pullRequests) ∧
      (∀ sec ∈ sortIntoSections prs,
        (containsStr "Overdue" sec.name = true → sec.pullRequests.Pairwise timerGe) ∧
        (containsStr "Overdue" sec.name = false → sec.pullRequests.Pairwise timerLe)) ∧
      ((∀ pr ∈ prs, pr.reportState ∈ baseNames) →
        (sortIntoSections prs).Pairwise
          (fun a b => sectionRank a.name < sectionRank b.name))) ∧
    sortIntoSections
        [⟨RS_IN_REVIEW, 1, false⟩, ⟨RS_OVERDUE_IN_REVIEW, 1, false⟩,
         ⟨RS_OVERDUE_AWAITING_REVIEW, 1, false⟩, ⟨RS_OVERDUE_IN_TRIAGE, 1, false⟩,
         ⟨RS_AWAITING_TRIAGE, 1, false⟩, ⟨RS_IN_TRIAGE, 1, false⟩,
         ⟨RS_AWAITING_REVIEW, 1, false⟩, ⟨RS_OVERDUE_FROM_USER_IN_TRIAGE, 1, false⟩,
         ⟨RS_OVERDUE_FROM_USER_IN_REVIEW, 1, false⟩,
         ⟨RS_OVERDUE_AWAITING_TRIAGE, 1, false⟩] =
      [⟨RS_OVERDUE_AWAITING_REVIEW, [⟨RS_OVERDUE_AWAITING_REVIEW, 1, false⟩]⟩,
       ⟨RS_OVERDUE_AWAITING_TRIAGE, [⟨RS_OVERDUE_AWAITING_TRIAGE, 1, false⟩]⟩,
       ⟨RS_AWAITING_TRIAGE, [⟨RS_AWAITING_TRIAGE, 1, false⟩]⟩,
       ⟨RS_AWAITING_REVIEW, [⟨RS_AWAITING_REVIEW, 1, false⟩]⟩,
       ⟨RS_OVERDUE_IN_REVIEW, [⟨RS_OVERDUE_IN_REVIEW, 1, false⟩]⟩,
       ⟨RS_OVERDUE_IN_TRIAGE, [⟨RS_OVERDUE_IN_TRIAGE, 1, false⟩]⟩,
       ⟨RS_OVERDUE_FROM_USER_IN_REVIEW, [⟨RS_OVERDUE_FROM_USER_IN_REVIEW, 1, false⟩]⟩,
       ⟨RS_OVERDUE_FROM_USER_IN_TRIAGE, [⟨RS_OVERDUE_FROM_USER_IN_TRIAGE, 1, false⟩]⟩,
       ⟨RS_IN_REVIEW, [⟨RS_IN_REVIEW, 1, false⟩]⟩,
       ⟨RS_IN_TRIAGE, [⟨RS_IN_TRIAGE, 1, false⟩]⟩] := by
  constructor
  · intro prs
    have hperm : List.Perm (sortIntoSections prs) ((groupSections prs).map sortSection) :=
      List.perm_insertionSort sectionLe _
    have hnames_map : ((groupSections prs).map sortSection).map ReportSection.name =
        (groupSections prs).map ReportSection.name := by
      rw [List.map_map]
      congr 1
      funext sec
      simp only [Function.comp_apply]
      exact sortSection_name sec
    have hnodup_g : ((groupSections prs).map ReportSection.name).Nodup :=
      foldSections_nodup prs [] (by simp)
    have hnodup : ((sortIntoSections prs).map ReportSection.name).Nodup := by
      refine ((hperm.map ReportSection.name).symm).nodup ?_
      rw [hnames_map]
      exact hnodup_g
    have hmem_map : ∀ sec, sec ∈ sortIntoSections prs ↔
        sec ∈ (groupSections prs).map sortSection :=
      fun sec => hperm.mem_iff
    have hlabels_g := foldSections_labels prs [] (by simp)
    refine ⟨hnodup, ?_, ?_, ?_, ?_⟩
    · intro sec hsec x hx
      obtain ⟨sec0, hsec0, rfl⟩ := List.mem_map.mp ((hmem_map sec).mp hsec)
      rw [sortSection_name]
      exact hlabels_g sec0 hsec0 x ((sortSection_mem sec0 x).mp hx)
    · intro pr hpr
      obtain ⟨sec0, hsec0, hmem0⟩ := foldSections_complete prs [] pr hpr
      exact ⟨sortSection sec0, (hmem_map _).mpr (List.mem_map.mpr ⟨sec0, hsec0, rfl⟩),
        (sortSection_mem sec0 pr).mpr hmem0⟩
    · intro sec hsec
      obtain ⟨sec0, hsec0, rfl⟩ := List.mem_map.mp ((hmem_map sec).mp hsec)
      exact sortSection_sorted sec0
    · intro hvalid
      have hP : ∀ sec ∈ (groupSections prs).map sortSection,
          sec.name ∈ allSectionNames := by
        intro sec hsec
        obtain ⟨sec0, hsec0, rfl⟩ := List.mem_map.mp hsec
        obtain ⟨x, hx⟩ := List.exists_mem_of_ne_nil _
          (foldSections_nonempty prs [] (by simp) sec0 hsec0)
        have hxprs : x ∈ prs := by
          rcases foldSections_entries prs [] sec0 x hsec0 hx with ⟨sec', h', -⟩ | h
          · simp at h'
          · exact h
        rw [sortSection_name, ← hlabels_g sec0 hsec0 x hx]
        exact effLabel_mem_allSectionNames x (hvalid x hxprs)
      have htot : ∀ a b : ReportSection, a.name ∈ allSectionNames →
          b.name ∈ allSectionNames → sectionLe a b ∨ sectionLe b a := by
        intro a b hA hB
        rcases Nat.le_total (sectionRank a.name) (sectionRank b.name) with h | h
        · exact Or.inl ((sectionCmp_rank_agree a.name hA b.name hB).1.mpr h)
        · exact Or.inr ((sectionCmp_rank_agree b.name hB a.name hA).1.mpr h)
      have htrans : ∀ a b c : ReportSection, a.name ∈ allSectionNames →
          b.name ∈ allSectionNames → c.name ∈ allSectionNames →
          sectionLe a b → sectionLe b c → sectionLe a c := by
        intro a b c hA hB hC hab hbc
        exact (sectionCmp_rank_agree a.name hA c.name hC).1.mpr
          (le_trans ((sectionCmp_rank_agree a.name hA b.name hB).1.mp hab)
            ((sectionCmp_rank_agree b.name hB c.name hC).1.mp hbc))
      have hpwle : (sortIntoSections prs).Pairwise sectionLe :=
        pairwise_insertionSort_of_mem sectionLe (fun sec => sec.name ∈ allSectionNames)
          htot htrans _ hP
      have hpwne : (sortIntoSections prs).Pairwise (fun a b => a.name ≠ b.name) :=
        List.pairwise_map.mp hnodup
      have hPs : ∀ sec ∈ sortIntoSections prs, sec.name ∈ allSectionNames :=
        fun sec hsec => hP sec ((hmem_map sec).mp hsec)
      refine (hpwle.and hpwne).imp_of_mem ?_
      intro a b ha hb hab
      exact lt_of_le_of_ne
        ((sectionCmp_rank_agree a.name (hPs a ha) b.name (hPs b hb)).1.mp hab.1)
        ((sectionCmp_rank_agree a.name (hPs a ha) b.name (hPs b hb)).2 hab.2)
  · decide

/-- Claim C8 (witness): the general theorem applied to a two-entry input
(one old overdue entry, one fresh awaiting entry) concludes the sections
come out in strictly increasing fixed priority. -/
theorem C8_sort_into_sections_witness :
    (sortIntoSections [⟨RS_AWAITING_TRIAGE, 1, false⟩, ⟨RS_OVERDUE_IN_TRIAGE, 2, true⟩]).Pairwise
      (fun a b => sectionRank a.name < sectionRank b.name) :=
  (C8_sort_into_sections.1
    [⟨RS_AWAITING_TRIAGE, 1, false⟩, ⟨RS_OVERDUE_IN_TRIAGE, 2, true⟩]).2.2.2.2
    (by decide)

/-! ### Claim C1: the replay round-trip -/

theorem lookupA_some_mem {β : Type} {l : List (Nat × β)} {n : Nat} {v : β}
    (h : lookupA l n = some v) : (n, v) ∈ l := by
  induction l with
  | nil => simp [lookupA] at h
  | cons p ps ih =>
    by_cases hp : p.1 = n
    · rw [lookupA, if_pos hp] at h
      have hv : v = p.2 := (Option.some.inj h).symm
      subst hv
      rw [← hp]
      simp
    · rw [lookupA, if_neg hp] at h
      exact List.mem_cons_of_mem _ (ih h)

theorem mem_keysA_cons {β : Type} (e : Nat × β) (l : List (Nat × β)) {n : Nat}
    (h : n ∈ keysA l) : n ∈ keysA (e :: l) := by
  simp only [keysA, List.map_cons, List.mem_cons]
  exact Or.inr h

theorem SetEq_trans {a b c : List String} (h1 : SetEq a b) (h2 : SetEq b c) : SetEq a c :=
  ⟨fun x hx => h2.1 x (h1.1 x hx), fun x hx => h1.2 x (h2.2 x hx)⟩

theorem mkOpt_getD (l : List String) : (mkOpt l).getD [] = l := by
  unfold mkOpt
  by_cases h : l = []
  · rw [if_pos h, h]
    rfl
  · rw [if_neg h]
    rfl

theorem mem_applyDelta {y : String} {s : List String} {d : Delta} :
    y ∈ applyDelta s d ↔
      (y ∈ s ∨ y ∈ d.added.getD []) ∧ ¬ y ∈ d.removed.getD [] := by
  simp only [applyDelta, List.mem_filter, List.mem_append, decide_not,
    Bool.not_eq_true', decide_eq_false_iff_not]
  constructor
  · rintro ⟨h1 | ⟨h1, -⟩, h2⟩
    · exact ⟨Or.inl h1, h2⟩
    · exact ⟨Or.inr h1, h2⟩
  · rintro ⟨h1 | h1, h2⟩
    · exact ⟨Or.inl h1, h2⟩
    · by_cases hs : y ∈ s
      · exact ⟨Or.inl hs, h2⟩
      · exact ⟨Or.inr ⟨h1, hs⟩, h2⟩

theorem SetEq_applyDelta_congr {s1 s2 : List String} (d : Delta) (h : SetEq s1 s2) :
    SetEq (applyDelta s1 d) (applyDelta s2 d) := by
  constructor
  · intro y hy
    rw [mem_applyDelta] at hy ⊢
    rcases hy with ⟨h1 | h1, h2⟩
    · exact ⟨Or.inl (h.1 y h1), h2⟩
    · exact ⟨Or.inr h1, h2⟩
  · intro y hy
    rw [mem_applyDelta] at hy ⊢
    rcases hy with ⟨h1 | h1, h2⟩
    · exact ⟨Or.inl (h.2 y h1), h2⟩
    · exact ⟨Or.inr h1, h2⟩

theorem applyDelta_diff (old new : List String) :
    SetEq
      (applyDelta old
        { added := mkOpt (diff new old), removed := mkOpt (diff old new) })
      new := by
  constructor
  · intro y hy
    rw [mem_applyDelta] at hy
    simp only [mkOpt_getD, mem_diff] at hy
    rcases hy with ⟨h1 | ⟨h1, -⟩, h2⟩
    · by_contra hn
      exact h2 ⟨h1, hn⟩
    · exact h1
  · intro y hy
    rw [mem_applyDelta]
    simp only [mkOpt_getD, mem_diff]
    by_cases ho : y ∈ old
    · exact ⟨Or.inl ho, fun hc => hc.2 hy⟩
    · exact ⟨Or.inr ⟨hy, ho⟩, fun hc => hc.2 hy⟩

theorem sortedKeys_insertionSort (l : List (Nat × Delta))
    (h : l.Pairwise (fun p q => p.1 < q.1)) :
    List.insertionSort (fun a b : Nat × Delta => a.1 ≤ b.1) l = l :=
  List.Sorted.insertionSort_eq (h.imp (fun hlt => le_of_lt hlt))

theorem replayChanges_of_sorted (ch : List (Nat × Delta))
    (h : ch.Pairwise (fun p q => p.1 < q.1)) :
    replayChanges ch = ch.foldl (fun s p => applyDelta s p.2) [] := by
  rw [replayChanges, sortedKeys_insertionSort ch h]

theorem replayChanges_append_fresh (ch : List (Nat × Delta)) (ts : Nat) (d : Delta)
    (hpw : ch.Pairwise (fun p q => p.1 < q.1)) (hlt : ∀ q ∈ ch, q.1 < ts) :
    replayChanges (ch ++ [(ts, d)]) = applyDelta (replayChanges ch) d := by
  have hpw2 : (ch ++ [(ts, d)]).Pairwise (fun p q : Nat × Delta => p.1 < q.1) :=
    List.pairwise_append.mpr ⟨hpw, List.pairwise_singleton _ _,
      fun a ha b hb => by
        rcases List.mem_singleton.mp hb with rfl
        exact hlt a ha⟩
  rw [replayChanges_of_sorted _ hpw2, replayChanges_of_sorted _ hpw, List.foldl_append]
  rfl

/-- The per-record invariant maintained by admissible run sequences: the
stored change keys are strictly increasing and bounded by the log
timestamp, and replaying them reproduces `current` as a set. -/
def RecInv (ts : Nat) (rec : IssueLabelRecord) : Prop :=
  rec.changes.Pairwise (fun p q => p.1 < q.1) ∧
  (∀ q ∈ rec.changes, q.1 ≤ ts) ∧
  SetEq (replayChanges rec.changes) rec.current

theorem RecInv_mono {t ts : Nat} {rec : IssueLabelRecord} (h : t ≤ ts)
    (hinv : RecInv t rec) : RecInv ts rec :=
  ⟨hinv.1, fun q hq => le_trans (hinv.2.1 q hq) h, hinv.2.2⟩

theorem RecInv_reconcile (st1 : List (Nat × IssueLabelRecord)) (k ts : Nat)
    (ls : List String)
    (hAll : ∀ p ∈ st1, RecInv ts p.2)
    (hFreshK : ∀ r, lookupA st1 k = some r → ∀ q ∈ r.changes, q.1 < ts) :
    RecInv ts
      { current := ls,
        changes := setA (recChanges (lookupA st1 k)) ts
          { added := mkOpt (diff ls (recCurrent (lookupA st1 k))),
            removed := mkOpt (diff (recCurrent (lookupA st1 k)) ls) } } := by
  rcases hlk : lookupA st1 k with _ | r
  · refine ⟨by simp [recChanges, setA], by simp [recChanges, setA], ?_⟩
    exact applyDelta_diff [] ls
  · have hr := hAll (k, r) (lookupA_some_mem hlk)
    have hfresh := hFreshK r hlk
    have hnotmem : ¬ ts ∈ keysA r.changes := by
      intro hmem
      obtain ⟨q, hq, hq2⟩ := List.mem_map.mp hmem
      exact absurd (hq2 ▸ hfresh q hq) (lt_irrefl ts)
    show RecInv ts
      { current := ls,
        changes := setA r.changes ts
          { added := mkOpt (diff ls r.current),
            removed := mkOpt (diff r.current ls) } }
    rw [setA_of_not_mem_keys _ hnotmem]
    refine ⟨?_, ?_, ?_⟩
    · exact List.pairwise_append.mpr ⟨hr.1, List.pairwise_singleton _ _,
        fun a ha b hb => by
          rcases List.mem_singleton.mp hb with rfl
          exact hfresh a ha⟩
    · intro q hq
      rcases List.mem_append.mp hq with hq | hq
      · exact le_of_lt (hfresh q hq)
      · rcases List.mem_singleton.mp hq with rfl
        exact le_refl ts
    · rw [replayChanges_append_fresh _ _ _ hr.1 hfresh]
      exact SetEq_trans (SetEq_applyDelta_congr _ hr.2.2) (applyDelta_diff r.current ls)

theorem foldIssues_inv (ts : Nat) :
    ∀ (entries : List (Nat × List String)) (st : List (Nat × IssueLabelRecord) × Bool),
    (keysA entries).Nodup →
    (∀ p ∈ st.1, RecInv ts p.2) →
    (∀ p ∈ st.1, p.1 ∈ keysA entries → ∀ q ∈ p.2.changes, q.1 < ts) →
    ∀ p ∈ (entries.foldl (issueStep ts) st).1, RecInv ts p.2 := by
  intro entries
  induction entries with
  | nil =>
    intro st _ hAll _
    exact hAll
  | cons e rest ih =>
    obtain ⟨k, ls⟩ := e
    intro st hnd hAll hFresh
    simp only [keysA, List.map_cons, List.nodup_cons] at hnd
    rw [List.foldl_cons]
    by_cases hpos : diff (recCurrent (lookupA st.1 k)) ls ≠ [] ∨
        diff ls (recCurrent (lookupA st.1 k)) ≠ []
    · have hstep : issueStep ts st (k, ls) =
          (setA st.1 k
            { current := ls,
              changes := setA (recChanges (lookupA st.1 k)) ts
                { added := mkOpt (diff ls (recCurrent (lookupA st.1 k))),
                  removed := mkOpt (diff (recCurrent (lookupA st.1 k)) ls) } },
           true) := by
        simp [issueStep, reconcileIssue_pos hpos]
      rw [hstep]
      have hrecInv := RecInv_reconcile st.1 k ts ls hAll
        (fun r hr => hFresh (k, r) (lookupA_some_mem hr) (by simp [keysA]))
      apply ih _ (by simpa [keysA] using hnd.2)
      · intro p hp
        rcases mem_setA hp with rfl | hp
        · exact hrecInv
        · exact hAll p hp
      · intro p hp hk
        rcases mem_setA hp with rfl | hp
        · exact absurd (by simpa [keysA] using hk) hnd.1
        · exact hFresh p hp (mem_keysA_cons (k, ls) rest hk)
    · push_neg at hpos
      have hstep : issueStep ts st (k, ls) = st := by
        simp [issueStep, reconcileIssue_neg hpos.1 hpos.2]
      rw [hstep]
      exact ih st (by simpa [keysA] using hnd.2) hAll
        (fun p hp hk => hFresh p hp (mem_keysA_cons (k, ls) rest hk))

theorem updateLog_timestamp (log : LogDocument) (info : IssueInfo)
    (lc : Option CommentBatch) :
    (updateLog log info lc).1.timestamp = some (newTimestampOf info lc) :=
  rfl

theorem updateLog_preserves_inv (log : LogDocument) (info : IssueInfo)
    (lc : Option CommentBatch)
    (hnd : (keysA info.issueLabels).Nodup)
    (hT : ∀ t, log.timestamp = some t → t < newTimestampOf info lc)
    (hG : ∀ p ∈ log.issueLabels, ∃ t, log.timestamp = some t ∧ RecInv t p.2) :
    ∀ p ∈ (updateLog log info lc).1.issueLabels,
      RecInv (newTimestampOf info lc) p.2 := by
  rw [updateLog_issueLabels]
  apply foldIssues_inv (newTimestampOf info lc) info.issueLabels _ hnd
  · intro p hp
    obtain ⟨t, ht, hinv⟩ := hG p hp
    exact RecInv_mono (le_of_lt (hT t ht)) hinv
  · intro p hp _ q hq
    obtain ⟨t, ht, hinv⟩ := hG p hp
    exact lt_of_le_of_lt (hinv.2.1 q hq) (hT t ht)

theorem runUpdates_inv (rs : List (IssueInfo × Option CommentBatch)) :
    ∀ (log : LogDocument),
    runsOk log.timestamp rs = true →
    (∀ p ∈ log.issueLabels, ∃ t, log.timestamp = some t ∧ RecInv t p.2) →
    ∀ p ∈ (runUpdates log rs).issueLabels,
      ∃ t, (runUpdates log rs).timestamp = some t ∧ RecInv t p.2 := by
  induction rs with
  | nil =>
    intro log _ hG
    exact hG
  | cons r rest ih =>
    intro log hok hG
    simp only [runsOk, Bool.and_eq_true] at hok
    obtain ⟨⟨hts, hnd⟩, hrest⟩ := hok
    have hT : ∀ t, log.timestamp = some t → t < newTimestampOf r.1 r.2 := by
      intro t ht
      rw [ht] at hts
      simpa using hts
    have hinv1 := updateLog_preserves_inv log r.1 r.2 (by simpa [keysA] using hnd) hT hG
    show ∀ p ∈ (runUpdates (updateLog log r.1 r.2).1 rest).issueLabels, _
    apply ih (updateLog log r.1 r.2).1
    · rw [updateLog_timestamp]
      exact hrest
    · intro p hp
      exact ⟨newTimestampOf r.1 r.2, updateLog_timestamp log r.1 r.2, hinv1 p hp⟩

/-- Claim C1 (counterexample): the round trip fails for a record produced
by a run sequence in which a later run overwrites an existing `changes`
entry at the same timestamp key.  Three runs on issue 1 — labels `["A"]` at
timestamp 1, `["B"]` at timestamp 2, then `["C"]` again at timestamp 2 —
leave `current = ["C"]` while the surviving history replays to `{A, C}`. -/
theorem C1_cex :
    (lookupA (runUpdates {}
      [({ timestamp := 1, issueLabels := [(1, ["A"])], pullRequests := [] }, none),
       ({ timestamp := 2, issueLabels := [(1, ["B"])], pullRequests := [] }, none),
       ({ timestamp := 2, issueLabels := [(1, ["C"])], pullRequests := [] }, none)]).issueLabels
      1).map (fun rec => (replayChanges rec.changes, rec.current)) =
      some (["A", "C"], ["C"]) ∧
    ¬ SetEq ["A", "C"] ["C"] := by
  decide

/-- Claim C1 (amended): for every record produced by a sequence of
`updateLog` runs whose effective timestamps are strictly increasing (so no
run overwrites an existing `changes` entry; batches carry unique issue
keys, as JS objects guarantee), replaying the record's `changes` map in
ascending timestamp order from the empty label set reproduces `current`
exactly as a set. -/
theorem C1_roundtrip (rs : List (IssueInfo × Option CommentBatch))
    (hok : runsOk none rs = true) (n : Nat) (rec : IssueLabelRecord)
    (hlook : lookupA (runUpdates {} rs).issueLabels n = some rec) :
    SetEq (replayChanges rec.changes) rec.current := by
  have h := runUpdates_inv rs {} hok (by simp)
  obtain ⟨t, -, hinv⟩ := h (n, rec) (lookupA_some_mem hlook)
  exact hinv.2.2

/-- Claim C1 (witness): two strictly increasing runs on issue 1 (labels
`["A"]` at timestamp 1, then `["B"]` at timestamp 2) produce the record
`{current: ["B"], changes: {1: {added: ["A"]}, 2: {added: ["B"],
removed: ["A"]}}}`, whose replay reproduces `["B"]` as a set. -/
theorem C1_roundtrip_witness :
    SetEq (replayChanges [(1, { added := some ["A"], removed := none }),
                          (2, { added := some ["B"], removed := some ["A"] })]) ["B"] :=
  C1_roundtrip
    [({ timestamp := 1, issueLabels := [(1, ["A"])], pullRequests := [] }, none),
     ({ timestamp := 2, issueLabels := [(1, ["B"])], pullRequests := [] }, none)]
    (by decide) 1
    { current := ["B"],
      changes := [(1, { added := some ["A"], removed := none }),
                  (2, { added := some ["B"], removed := some ["A"] })] }
    (by decide)

end GithubLabelTracker
